import Mathlib

/-!
# pflags: typed command-line flags

A shallow embedding of the Go packages `errors`, `flagdef`, `parse` and
`pflags`, and theorems about them.

Conventions of the embedding.
* A Go `string` is a Lean `String`; the helpers of package `strings` that the
  code calls are defined on the character list. The code compares, trims and
  slices strings and never decodes them, so where a string is not valid UTF-8
  its characters are read as its bytes.
* A Go slice is a `List`; the nil slice and the empty slice are both `[]`
  (the code only ever asks for their length).
* A Go map is a key/value list that holds each key at most once.
* A nil pointer is `none`; a fallible function returns `Except`.
* Standard-library routines whose code is not part of the repository
  (`strconv.ParseFloat`, package `regexp`, package `encoding/json`) are
  parameters.
-/

set_option autoImplicit false

deriving instance DecidableEq for Except

/-! ## Package `strings` -/

namespace strings

/-- Go `strings.Trim(s, cutset)`: drop every leading and trailing character
of `s` that occurs in `cutset`. -/
def Trim (s cutset : String) : String :=
  ⟨((s.data.dropWhile (fun c => cutset.data.contains c)).reverse.dropWhile
      (fun c => cutset.data.contains c)).reverse⟩

/-- Go `strings.HasPrefix(s, prefix)`. -/
def HasPrefix (s pre : String) : Bool :=
  pre.data.isPrefixOf s.data

/-- Position of the first occurrence of `sub` in the character list, counted
from `pos`; `-1` when there is none. -/
def indexFrom (sub : List Char) : List Char → Nat → Int
  | [], pos => if sub.isPrefixOf [] then (pos : Int) else -1
  | c :: cs, pos => if sub.isPrefixOf (c :: cs) then (pos : Int) else indexFrom sub cs (pos + 1)

/-- Go `strings.Index(s, substr)`. -/
def Index (s substr : String) : Int :=
  indexFrom substr.data s.data 0

/-- Go slice expression `s[from:]` on a string. -/
def sliceFrom (s : String) (start : Int) : String :=
  ⟨s.data.drop start.toNat⟩

end strings

/-! ## Package `errors` -/

namespace errors

/-- Go `errors.Code`. -/
structure Code where
  code : Int
  name : String
  deriving DecidableEq, Repr

def NewCode (code : Int) (name : String) : Code := { code := code, name := name }

def ERROR : Code := NewCode 1 "ERROR"
def INVALID_USAGE : Code := NewCode 2 "INVALID_USAGE"
def INVAID_VALUE : Code := NewCode 4 "INVAID_VALUE"
def NOT_FOUND : Code := NewCode 40 "NOT_FOUND"
def INTERNAL_ERROR : Code := NewCode 99 "INTERNAL_ERROR"
def USAGE_HELP_REQUESTED : Code := NewCode 100 "USAGE_HELP_REQUESTED"

/-- Go `errors.Error`. Only the code is kept: the message is text for the
terminal and no caller in the repository inspects it. -/
structure Error where
  code : Code
  deriving DecidableEq, Repr

/-- Go `errors.NewError(code, msgFormat, a...)`. -/
def NewError (code : Code) : Error := { code := code }

/-- Go `(*Error).Code`. -/
def Error.Code (o : Error) : Code := o.code

end errors

open errors

/-! ## Package `flagdef` -/

namespace flagdef

/-- Go `type FlagType string`. -/
abbrev FlagType := String

def UNKNOWN : FlagType := "unknown"
def BOOL_FLAG : FlagType := "boolean"
def NUMBER_FLAG : FlagType := "number"
def STRING_FLAG : FlagType := "string"

/-- A compiled `*regexp.Regexp`, known through the one method the code calls
on it. -/
structure Regexp where
  /-- The expression text, `(*Regexp).String`. -/
  expr : String
  /-- The method `(*Regexp).Match`, on the bytes of a string. -/
  Match : String → Bool

/-- The standard-library routines package `flagdef` calls. -/
structure StdLib where
  /-- Whether `strconv.ParseFloat(s, 64)` returns a nil error. -/
  ParseFloatOk : String → Bool
  /-- The function `regexp.Compile`; `none` is a compile error. -/
  Compile : String → Option Regexp

def DefaultValueForType (f : FlagType) : String :=
  if f = BOOL_FLAG then "false"
  else if f = NUMBER_FLAG then "0"
  else ""

def TypeFromString (t : String) : Except Error FlagType :=
  if t = "boolean" ∨ t = "bool" then .ok BOOL_FLAG
  else if t = "number" then .ok NUMBER_FLAG
  else if t = "string" then .ok STRING_FLAG
  else .error (NewError INVAID_VALUE)

/-- Go `flagdef.FlagDef`. -/
structure FlagDef where
  shortName : String
  longName : String
  desc : String
  flagType : FlagType
  required : Bool
  defaultVals : List String
  allowedVals : List String
  strRegex : Option Regexp
  defaultValuesRequiredForOptional : Bool

/-- Go `flagdef.Option`, a function `func(*FlagDef) *errors.Error`. Package
`flagdef` exports six ways to make one; a value of this type names which. -/
inductive FlagOption where
  | Description (desc : String)
  | DefaultValues (vals : List String)
  | Required (required : Bool)
  | DefaultValuesRequiredForOptional
  | AllowedValues (vals : List String)
  | StringRegex (regex : String)

/-- Running an option on the flag under construction: the closure each of the
six constructors returns. -/
def FlagOption.run (L : StdLib) : FlagOption → FlagDef → Except Error FlagDef
  | .Description desc, fc => .ok { fc with desc := desc }
  | .DefaultValues vals, fc => .ok { fc with defaultVals := vals }
  | .Required required, fc => .ok { fc with required := required }
  | .DefaultValuesRequiredForOptional, fc => .ok { fc with defaultValuesRequiredForOptional := true }
  | .AllowedValues vals, fc => .ok { fc with allowedVals := vals }
  | .StringRegex regex, fc =>
    if regex = "" then .ok fc
    else
      match L.Compile regex with
      | none => .error (NewError INVALID_USAGE)
      | some complied => .ok { fc with strRegex := some complied }

/-- The loop `for _, opt := range opts` of `New`: the first failing option
ends construction. -/
def applyOpts (L : StdLib) : List FlagOption → FlagDef → Except Error FlagDef
  | [], flag => .ok flag
  | opt :: opts, flag =>
    match opt.run L flag with
    | .error err => .error err
    | .ok flag => applyOpts L opts flag

/-- Go `flagdef.New`. -/
def New (L : StdLib) (shortName longName : String) (flagType : FlagType)
    (opts : List FlagOption) : Except Error FlagDef :=
  let shortName := strings.Trim shortName " "
  let longName := strings.Trim longName " "
  if shortName = "" ∧ longName = "" then .error (NewError INVALID_USAGE)
  else
    let flag : FlagDef :=
      { shortName := shortName, longName := longName, desc := "", flagType := flagType,
        required := false, defaultVals := [], allowedVals := [], strRegex := none,
        defaultValuesRequiredForOptional := false }
    match applyOpts L opts flag with
    | .error err => .error err
    | .ok flag =>
      if flag.required ∧ flag.defaultVals.length > 0 then .error (NewError INVALID_USAGE)
      else if flag.defaultValuesRequiredForOptional ∧ ¬ flag.required ∧ flag.defaultVals.length = 0 then
        .error (NewError INVALID_USAGE)
      else if flag.allowedVals.length > 0 ∧ [BOOL_FLAG].contains flag.flagType then
        .error (NewError INVALID_USAGE)
      else if flag.strRegex.isSome ∧ [BOOL_FLAG, NUMBER_FLAG].contains flag.flagType then
        .error (NewError INVALID_USAGE)
      else .ok flag

def FlagDef.Name (o : FlagDef) : String :=
  let sn := "-" ++ o.shortName
  let ln := "--" ++ o.longName
  if o.shortName ≠ "" ∧ o.longName ≠ "" then sn ++ "/" ++ ln
  else if o.shortName ≠ "" then sn
  else if o.longName ≠ "" then ln
  else ""

def FlagDef.ShortName (o : FlagDef) : String := o.shortName
def FlagDef.LongName (o : FlagDef) : String := o.longName
def FlagDef.Type (o : FlagDef) : FlagType := o.flagType
def FlagDef.Required (o : FlagDef) : Bool := o.required
def FlagDef.DefaultValues (o : FlagDef) : List String := o.defaultVals
def FlagDef.Description (o : FlagDef) : String := o.desc

/-- Go `(*FlagDef).Validate`; `none` is the nil error. -/
def FlagDef.Validate (L : StdLib) (o : FlagDef) (val : String) : Option Error :=
  let typeErr : Option Error :=
    if o.flagType = BOOL_FLAG then
      if val ≠ "false" ∧ val ≠ "true" then some (NewError INVAID_VALUE) else none
    else if o.flagType = NUMBER_FLAG then
      if L.ParseFloatOk val then none else some (NewError INVAID_VALUE)
    else if o.flagType = STRING_FLAG then
      match o.strRegex with
      | some re => if ¬ re.Match val then some (NewError INVAID_VALUE) else none
      | none => none
    else some (NewError INVALID_USAGE)
  match typeErr with
  | some err => some err
  | none =>
    if o.allowedVals.length > 0 ∧ ¬ o.allowedVals.contains val then some (NewError INVAID_VALUE)
    else none

end flagdef

open flagdef

/-! ## Go maps -/

/-- Go `map[K]V`: a key/value list with each key at most once. -/
abbrev GoMap (κ ν : Type) := List (κ × ν)

namespace GoMap

variable {κ ν : Type} [DecidableEq κ]

/-- Go `v, ok := m[k]`. -/
def get? : GoMap κ ν → κ → Option ν
  | [], _ => none
  | (k', v) :: m, k => if k' = k then some v else get? m k

/-- Go `m[k] = v`. -/
def set (m : GoMap κ ν) (k : κ) (v : ν) : GoMap κ ν :=
  (k, v) :: m.filter (fun p => p.1 ≠ k)

end GoMap

/-! ## Package `parse` -/

namespace parse

/-- Go `parse.Result`. -/
structure Result where
  FlagValuesForID : GoMap Int (List String)
  FlagsNameToID : GoMap String Int
  NonFlagArgs : List String
  deriving DecidableEq, Repr

/-- Package `encoding/json` at type `Result`: `json.Marshal(res)` and
`json.Unmarshal(bytes, &Result{})`; `none` is a non-nil error. -/
structure Json where
  Marshal : Result → Option (List (Fin 256))
  Unmarshal : List (Fin 256) → Option Result

/-- Go `parse.ResultFromBytes`. -/
def ResultFromBytes (J : Json) (bytes : List (Fin 256)) : Except Error Result :=
  if bytes.length = 0 then .error (NewError ERROR)
  else
    match J.Unmarshal bytes with
    | none => .error (NewError INVALID_USAGE)
    | some res => .ok res

/-- Go `parse.Get`. -/
def Get (name : String) (result : Option Result) : Except Error (List String) :=
  match result with
  | none => .error (NewError INVALID_USAGE)
  | some result =>
    match result.FlagsNameToID.get? name with
    | none => .error (NewError NOT_FOUND)
    | some id =>
      match result.FlagValuesForID.get? id with
      | none => .error (NewError NOT_FOUND)
      | some vals => .ok vals

/-- Go `parse.NonFlagArgs`. -/
def NonFlagArgs (result : Option Result) : List String :=
  match result with
  | none => []
  | some result => result.NonFlagArgs

/-- The first test of the scan in `flagValue`: the token is `-<short>` or
`--<long>`. -/
def isHead (flag : FlagDef) (tok : String) : Bool :=
  tok = "-" ++ flag.ShortName ∨ tok = "--" ++ flag.LongName

/-- The second test of the scan in `flagValue`: the token starts with
`-<short>=` or `--<long>=`. -/
def isEqualsForm (flag : FlagDef) (tok : String) : Bool :=
  strings.HasPrefix tok ("-" ++ flag.ShortName ++ "=") ∨
    strings.HasPrefix tok ("--" ++ flag.LongName ++ "=")

/-- The scan loop of `flagValue`, `for i := 0; i < size;`, run on the tokens
from position `i` on, with the `values` and `remaining` gathered so far. -/
def flagValueLoop (L : StdLib) (flag : FlagDef) :
    List String → List String → List String → Except Error (List String × List String)
  | [], values, remaining => .ok (values, remaining)
  | tok :: rest, values, remaining =>
    if isHead flag tok then
      if flag.Type = BOOL_FLAG then
        match rest with
        | nxt :: rest' =>
          match flag.Validate L nxt with
          | none => flagValueLoop L flag rest' (values ++ [nxt]) remaining
          | some _ => flagValueLoop L flag (nxt :: rest') (values ++ ["true"]) remaining
        | [] => flagValueLoop L flag [] (values ++ ["true"]) remaining
      else
        match rest with
        | nxt :: rest' =>
          if ¬ strings.HasPrefix nxt "-" then
            match flag.Validate L nxt with
            | some err => .error err
            | none => flagValueLoop L flag rest' (values ++ [nxt]) remaining
          else .error (NewError INVAID_VALUE)
        | [] => .error (NewError INVAID_VALUE)
    else if isEqualsForm flag tok then
      let eqIndx := strings.Index tok "="
      let value := strings.sliceFrom tok (eqIndx + 1)
      match flag.Validate L value with
      | some err => .error err
      | none => flagValueLoop L flag rest (values ++ [value]) remaining
    else flagValueLoop L flag rest values (remaining ++ [tok])

/-- Go `parse.flagValue`. On an error the Go function also hands back the
untouched `cmdArgs`, which its only caller drops. -/
def flagValue (L : StdLib) (flag : FlagDef) (cmdArgs : List String) :
    Except Error (List String × List String) :=
  match flagValueLoop L flag cmdArgs [] [] with
  | .error err => .error err
  | .ok (values, remaining) =>
    if values.length = 0 then
      if flag.Required then .error (NewError INVALID_USAGE)
      else if flag.DefaultValues.length > 0 then .ok (flag.DefaultValues, remaining)
      else .ok (values, remaining)
    else .ok (values, remaining)

/-- The body of the flag loop of `Parse` once the matcher has returned: the
block `if len(flagVals) > 0 { ... }`. -/
def register (result : Result) (flag : FlagDef) (id : Nat) (flagVals : List String) : Result :=
  if flagVals.length > 0 then
    let names := result.FlagsNameToID
    let names := if flag.ShortName ≠ "" then names.set flag.ShortName (id : Int) else names
    let names := if flag.LongName ≠ "" then names.set flag.LongName (id : Int) else names
    { result with FlagsNameToID := names,
                  FlagValuesForID := result.FlagValuesForID.set (id : Int) flagVals }
  else result

/-- The loop `for id, flag := range flagDef` of `Parse`, from index `id` on. -/
def parseLoop (L : StdLib) : List FlagDef → Nat → Result → List String →
    Except Error (Result × List String)
  | [], _, result, remaining => .ok (result, remaining)
  | flag :: flags, id, result, remaining =>
    match flagValue L flag remaining with
    | .error err => .error err
    | .ok (flagVals, remaining) =>
      parseLoop L flags (id + 1) (register result flag id flagVals) remaining

/-- The test of the unrecognized-flag loop of `Parse` on one argument. -/
def unrecognized (arg : String) : Bool :=
  strings.Trim arg "-" ≠ "" ∧ strings.HasPrefix arg "-"

/-- Go `parse.Parse`. -/
def Parse (L : StdLib) (flagDef : List FlagDef) (cmdArgs : List String)
    (allowUnrecognizedFlags : Bool) : Except Error Result :=
  let result : Result := { FlagValuesForID := [], FlagsNameToID := [], NonFlagArgs := [] }
  match parseLoop L flagDef 0 result cmdArgs with
  | .error err => .error err
  | .ok (result, remaining) =>
    if ¬ allowUnrecognizedFlags ∧ remaining.any unrecognized then
      .error (NewError INVALID_USAGE)
    else .ok { result with NonFlagArgs := remaining }

end parse

open parse

/-! ## Package `pflags` -/

namespace pflags

/-- Go `pflags.Pflags`. -/
structure Pflags where
  usage : String
  allowUnrecognizedFlags : Bool
  flags : List FlagDef
  result : Option parse.Result
  parsedBytes : List (Fin 256)

/-- Go `pflags.Option`; the package exports one, `AllowUnrecognizedFlags`. -/
inductive RegistryOption where
  | AllowUnrecognizedFlags

def RegistryOption.run : RegistryOption → Pflags → Pflags
  | .AllowUnrecognizedFlags, o => { o with allowUnrecognizedFlags := true }

/-- Go `pflags.New`. -/
def New (usage : String) (opts : List RegistryOption) : Pflags :=
  opts.foldl (fun obj opt => opt.run obj)
    { usage := usage, allowUnrecognizedFlags := false, flags := [], result := none,
      parsedBytes := [] }

/-- Go `(*Pflags).Add`: the registry afterwards and the error, if any. -/
def Pflags.Add (L : StdLib) (o : Pflags) (shortName longName : String) (flagType : FlagType)
    (opts : List FlagOption) : Pflags × Option Error :=
  if shortName = "" ∧ longName = "" then (o, some (NewError INVALID_USAGE))
  else
    match flagdef.New L shortName longName flagType opts with
    | .error err => (o, some err)
    | .ok flag => ({ o with flags := o.flags ++ [flag] }, none)

/-- Go `(*Pflags).Parse`: the registry afterwards and the error, if any. -/
def Pflags.Parse (L : StdLib) (J : parse.Json) (o : Pflags) (cmdArgs : List String) :
    Pflags × Option Error :=
  let o := { o with result := none, parsedBytes := [] }
  match parse.Parse L o.flags cmdArgs o.allowUnrecognizedFlags with
  | .error err => (o, some err)
  | .ok res =>
    match J.Marshal res with
    | none => (o, some (NewError INVALID_USAGE))
    | some resBytes => ({ o with result := some res, parsedBytes := resBytes }, none)

/-- Go `(*Pflags).Get`. -/
def Pflags.Get (o : Pflags) (name : String) : Except Error (List String) :=
  parse.Get name o.result

/-- Go `(*Pflags).Parsed`. -/
def Pflags.Parsed (o : Pflags) : List (Fin 256) := o.parsedBytes

/-- Go `(*Pflags).NonFlagArgs`. -/
def Pflags.NonFlagArgs (o : Pflags) : List String := parse.NonFlagArgs o.result

/-- Go `pflags.NonFlagArgsFromBytes`. -/
def NonFlagArgsFromBytes (J : parse.Json) (bytes : List (Fin 256)) : Except Error (List String) :=
  match parse.ResultFromBytes J bytes with
  | .error err => .error err
  | .ok res => .ok (parse.NonFlagArgs (some res))

/-- Go `pflags.GetFromParsedBytes`. -/
def GetFromParsedBytes (J : parse.Json) (name : String) (bytes : List (Fin 256)) :
    Except Error (List String) :=
  match parse.ResultFromBytes J bytes with
  | .error err => .error err
  | .ok res => parse.Get name (some res)

end pflags

/-! ## What a list of options declares -/

namespace Declared

/-- The argument of the last `Required` option, `false` when there is none. -/
def required (opts : List FlagOption) : Bool :=
  ((opts.filterMap fun o => match o with
    | .Required b => some b
    | _ => none).getLast?).getD false

/-- The argument of the last `DefaultValues` option, empty when there is none. -/
def defaults (opts : List FlagOption) : List String :=
  ((opts.filterMap fun o => match o with
    | .DefaultValues vals => some vals
    | _ => none).getLast?).getD []

/-- The argument of the last `AllowedValues` option, empty when there is none. -/
def allowed (opts : List FlagOption) : List String :=
  ((opts.filterMap fun o => match o with
    | .AllowedValues vals => some vals
    | _ => none).getLast?).getD []

/-- The argument of the last `Description` option, empty when there is none. -/
def description (opts : List FlagOption) : String :=
  ((opts.filterMap fun o => match o with
    | .Description desc => some desc
    | _ => none).getLast?).getD ""

/-- The defaults-mandatory mode is switched on by some option. -/
def defaultsMandatory (opts : List FlagOption) : Bool :=
  opts.any fun o => match o with
    | .DefaultValuesRequiredForOptional => true
    | _ => false

/-- Some option sets a string pattern: a `StringRegex` with a non-empty
expression. -/
def patternSet (opts : List FlagOption) : Bool :=
  opts.any fun o => match o with
    | .StringRegex regex => regex ≠ ""
    | _ => false

end Declared

/-- A stand-in for the standard library, to evaluate examples: a number is a
non-empty run of decimal digits, and no pattern compiles. -/
def exampleLib : StdLib :=
  { ParseFloatOk := fun s => s.data.all Char.isDigit && s.data ≠ [],
    Compile := fun _ => none }

/-! ## Flags used in examples -/

/-- The flag `-s`, `--short`: a string, allowed values `foo` and `bar`. -/
def flagShort : FlagDef :=
  { shortName := "s", longName := "short", desc := "", flagType := STRING_FLAG,
    required := false, defaultVals := [], allowedVals := ["foo", "bar"], strRegex := none,
    defaultValuesRequiredForOptional := false }

/-- The flag `-t`, `--type`: a number, default `123`. -/
def flagT : FlagDef :=
  { shortName := "t", longName := "type", desc := "", flagType := NUMBER_FLAG,
    required := false, defaultVals := ["123"], allowedVals := [], strRegex := none,
    defaultValuesRequiredForOptional := false }

/-- The flag `-v`: a boolean. -/
def flagV : FlagDef :=
  { shortName := "v", longName := "", desc := "", flagType := BOOL_FLAG,
    required := false, defaultVals := [], allowedVals := [], strRegex := none,
    defaultValuesRequiredForOptional := false }

/-- The flag `-n`: a number. -/
def flagN : FlagDef :=
  { shortName := "n", longName := "", desc := "", flagType := NUMBER_FLAG,
    required := false, defaultVals := [], allowedVals := [], strRegex := none,
    defaultValuesRequiredForOptional := false }

/-- The flag `-r`: a required string. -/
def flagR : FlagDef :=
  { shortName := "r", longName := "", desc := "", flagType := STRING_FLAG,
    required := true, defaultVals := [], allowedVals := [], strRegex := none,
    defaultValuesRequiredForOptional := false }

/-- The flag `--name`: a required string. -/
def flagName : FlagDef :=
  { shortName := "", longName := "name", desc := "", flagType := STRING_FLAG,
    required := true, defaultVals := [], allowedVals := [], strRegex := none,
    defaultValuesRequiredForOptional := false }

/-! ## Invariant of a parse result -/

/-- The map invariant of a parse result: every id a name maps to has values,
and no stored value sequence is empty. -/
def ResultInv (result : Result) : Prop :=
  (∀ name id, result.FlagsNameToID.get? name = some id →
    ∃ vals, result.FlagValuesForID.get? id = some vals ∧ vals ≠ []) ∧
  (∀ id vals, result.FlagValuesForID.get? id = some vals → vals ≠ [])

/-! ## Serialisation -/

/-- Two results are equal field for field: the same values at every id, the
same id at every name, the same leftover tokens. -/
def parse.Result.Same (a b : Result) : Prop :=
  (∀ id, a.FlagValuesForID.get? id = b.FlagValuesForID.get? id) ∧
  (∀ name, a.FlagsNameToID.get? name = b.FlagsNameToID.get? name) ∧
  a.NonFlagArgs = b.NonFlagArgs

/-- The result of parsing `["-v", "extra"]` against the flag `-v`. -/
def exampleResult : Result :=
  { FlagValuesForID := [(0, ["true"])], FlagsNameToID := [("v", 0)], NonFlagArgs := ["extra"] }

/-- The JSON text of `exampleResult`, as bytes: an object with the fields
`flagValuesForID` (the object with key `0` and value the array of `true`),
`flagsNameToID` (the object with key `v` and value 0) and `nonFlagArgs` (the
array of `extra`), written without spaces. -/
def exampleBytes : List (Fin 256) :=
  "\x7b\x22flagValuesForID\x22:\x7b\x220\x22:[\x22true\x22]\x7d,\x22flagsNameToID\x22:\x7b\x22v\x22:0\x7d,\x22nonFlagArgs\x22:[\x22extra\x22]\x7d".data.map
    (fun c => Fin.ofNat c.toNat)

/-- A stand-in for `encoding/json`, to evaluate examples: the codec tabulated
at `exampleResult`, an error everywhere else. -/
def exampleJson : Json :=
  { Marshal := fun r => if r = exampleResult then some exampleBytes else none,
    Unmarshal := fun bytes => if bytes = exampleBytes then some exampleResult else none }

/-- A registry holding the flag `-v`, before any parse. -/
def exampleRegistry : pflags.Pflags :=
  { usage := "", allowUnrecognizedFlags := false, flags := [flagV], result := none,
    parsedBytes := [] }

/-! ## A pattern of literal text -/

/-- The expression package `regexp` compiles from a pattern of letters and
digits: as the package documents, `Match` reports whether the text contains a
match of the expression, and a run of letters and digits matches itself. -/
def literalRegexp (pat : String) : Regexp :=
  { expr := pat, Match := fun text => decide (strings.Index text pat ≥ 0) }

/-- A stand-in for the standard library in which the patterns made of letters
and digits compile, each to the search for its own text. -/
def regexLib : StdLib :=
  { ParseFloatOk := exampleLib.ParseFloatOk,
    Compile := fun pat =>
      if pat.data.all Char.isAlphanum then some (literalRegexp pat) else none }

/-- The flag `-p`: a string with the pattern `a`. -/
def flagP : FlagDef :=
  { shortName := "p", longName := "", desc := "", flagType := STRING_FLAG,
    required := false, defaultVals := [], allowedVals := [],
    strRegex := some (literalRegexp "a"), defaultValuesRequiredForOptional := false }

/-- A result, as it could be deserialised, whose name map sends `ghost` to an
id that has no values. -/
def ghostResult : Result :=
  { FlagValuesForID := [], FlagsNameToID := [("ghost", 7)], NonFlagArgs := [] }

/-- The flag `-a`: a boolean. -/
def flagA : FlagDef :=
  { shortName := "a", longName := "", desc := "", flagType := BOOL_FLAG,
    required := false, defaultVals := [], allowedVals := [], strRegex := none,
    defaultValuesRequiredForOptional := false }

/-- The flag `-b`: a string. -/
def flagB : FlagDef :=
  { shortName := "b", longName := "", desc := "", flagType := STRING_FLAG,
    required := false, defaultVals := [], allowedVals := [], strRegex := none,
    defaultValuesRequiredForOptional := false }

/-- The flag `-t`, `--tag`: a string, default `x`. It shares its short name
with `flagT`. -/
def flagTag : FlagDef :=
  { shortName := "t", longName := "tag", desc := "", flagType := STRING_FLAG,
    required := false, defaultVals := ["x"], allowedVals := [], strRegex := none,
    defaultValuesRequiredForOptional := false }

/-! ## Repeated occurrences of one flag -/

/-- The tokens of one occurrence of the flag `-s` with value `v`: the equals
form `-s=v` when `equalsForm` is set, the bare form `-s v` otherwise. -/
def occurrenceTokens (equalsForm : Bool) (v : String) : List String :=
  if equalsForm then ["-s=" ++ v] else ["-s", v]

/-- The input made of the given occurrences of `-s`, in order. -/
def occurrencesInput : List (Bool × String) → List String
  | [] => []
  | (equalsForm, v) :: occ => occurrenceTokens equalsForm v ++ occurrencesInput occ

/-- The flag `-s`: a string. -/
def flagS : FlagDef :=
  { shortName := "s", longName := "", desc := "", flagType := STRING_FLAG,
    required := false, defaultVals := [], allowedVals := [], strRegex := none,
    defaultValuesRequiredForOptional := false }

/-- The flag `-n`: a number whose default `abc` is not a number. -/
def flagBadDefault : FlagDef :=
  { shortName := "n", longName := "", desc := "", flagType := NUMBER_FLAG,
    required := false, defaultVals := ["abc"], allowedVals := [], strRegex := none,
    defaultValuesRequiredForOptional := false }

/-! ## A token that is not valid UTF-8 -/

/-- The argument token made of the single byte `0xFF`, which is not valid
UTF-8. The code compares, trims and slices tokens and never decodes them, so a
token can be read off a `String` byte by byte as well as character by
character; in `tokenFF` and `tokenReplaced` each character stands for the byte
of the same number. -/
def tokenFF : String := "\xff"

/-- The token made of the three bytes `EF BF BD`, the UTF-8 encoding of the
replacement character U+FFFD. -/
def tokenReplaced : String := "\xef\xbf\xbd"

/-- The result of parsing `[tokenFF]` against the flag `-v`. -/
def invalidTokenResult : Result :=
  { FlagValuesForID := [], FlagsNameToID := [], NonFlagArgs := [tokenFF] }

/-- The result `invalidTokenResult` with the token replaced. -/
def replacedTokenResult : Result :=
  { FlagValuesForID := [], FlagsNameToID := [], NonFlagArgs := [tokenReplaced] }

/-- The JSON text `json.Marshal` writes for `invalidTokenResult`, as bytes: an
object with the fields `flagValuesForID` (an empty object), `flagsNameToID` (an
empty object) and `nonFlagArgs`, the array of one string that holds the
six-character escape `\ufffd` in place of the byte `0xFF`. -/
def invalidTokenBytes : List (Fin 256) :=
  "\x7b\x22flagValuesForID\x22:\x7b\x7d,\x22flagsNameToID\x22:\x7b\x7d,\x22nonFlagArgs\x22:[\x22\\ufffd\x22]\x7d".data.map
    (fun c => Fin.ofNat c.toNat)

/-- A stand-in for `encoding/json`, tabulated at `invalidTokenResult`: as the
package documents, `json.Marshal` coerces a string to valid UTF-8 by replacing
each invalid byte with the replacement character, and `json.Unmarshal` decodes
what was written. -/
def coercingJson : Json :=
  { Marshal := fun r => if r = invalidTokenResult then some invalidTokenBytes else none,
    Unmarshal := fun bytes =>
      if bytes = invalidTokenBytes then some replacedTokenResult else none }

/-! ## More flags used in examples -/

/-- The flag `-t`, `--tmp`: a string without default. It shares its short name
with `flagT`. -/
def flagTmp : FlagDef :=
  { shortName := "t", longName := "tmp", desc := "", flagType := STRING_FLAG,
    required := false, defaultVals := [], allowedVals := [], strRegex := none,
    defaultValuesRequiredForOptional := false }

/-! # Theorems -/

/-! ## Construction of a flag -/

/-- The option loop over `xs ++ ys` runs `xs`, then `ys`. -/
theorem applyOpts_append (L : StdLib) (xs ys : List FlagOption) (fc : FlagDef) :
    applyOpts L (xs ++ ys) fc =
      match applyOpts L xs fc with
      | .error err => .error err
      | .ok d => applyOpts L ys d := by
  induction xs generalizing fc with
  | nil => simp [applyOpts]
  | cons o xs ih =>
    simp only [List.cons_append, applyOpts]
    cases h : o.run L fc with
    | error e => simp
    | ok d => simpa using ih d

/-- What `applyOpts` does to each field, when every pattern compiles. -/
theorem applyOpts_spec (L : StdLib) (opts : List FlagOption) (fc : FlagDef)
    (hre : ∀ r, FlagOption.StringRegex r ∈ opts → r = "" ∨ (L.Compile r).isSome = true)
    (h0 : fc.required = false ∧ fc.defaultVals = [] ∧ fc.allowedVals = [] ∧ fc.desc = "" ∧
      fc.strRegex = none ∧ fc.defaultValuesRequiredForOptional = false) :
    ∃ d, applyOpts L opts fc = .ok d ∧ d.shortName = fc.shortName ∧ d.longName = fc.longName ∧
      d.flagType = fc.flagType ∧ d.required = Declared.required opts ∧
      d.defaultVals = Declared.defaults opts ∧ d.allowedVals = Declared.allowed opts ∧
      d.desc = Declared.description opts ∧
      d.defaultValuesRequiredForOptional = Declared.defaultsMandatory opts ∧
      d.strRegex.isSome = Declared.patternSet opts := by
  induction opts using List.reverseRecOn with
  | nil =>
    obtain ⟨h1, h2, h3, h4, h5, h6⟩ := h0
    exact ⟨fc, rfl, rfl, rfl, rfl, by simp [Declared.required, h1],
      by simp [Declared.defaults, h2], by simp [Declared.allowed, h3],
      by simp [Declared.description, h4], by simp [Declared.defaultsMandatory, h6],
      by simp [Declared.patternSet, h5]⟩
  | append_singleton xs o ih =>
    obtain ⟨d, hd, e1, e2, e3, e4, e5, e6, e7, e8, e9⟩ :=
      ih (fun r hr => hre r (List.mem_append_left _ hr))
    have ho := hre
    rw [applyOpts_append, hd]
    simp only [applyOpts]
    cases o with
    | Description desc =>
      refine ⟨{ d with desc := desc }, rfl, e1, e2, e3, ?_, ?_, ?_, ?_, ?_, ?_⟩ <;>
        simp [Declared.required, Declared.defaults, Declared.allowed, Declared.description,
          Declared.defaultsMandatory, Declared.patternSet, List.filterMap_append, *]
    | DefaultValues vals =>
      refine ⟨{ d with defaultVals := vals }, rfl, e1, e2, e3, ?_, ?_, ?_, ?_, ?_, ?_⟩ <;>
        simp [Declared.required, Declared.defaults, Declared.allowed, Declared.description,
          Declared.defaultsMandatory, Declared.patternSet, List.filterMap_append, *]
    | Required b =>
      refine ⟨{ d with required := b }, rfl, e1, e2, e3, ?_, ?_, ?_, ?_, ?_, ?_⟩ <;>
        simp [Declared.required, Declared.defaults, Declared.allowed, Declared.description,
          Declared.defaultsMandatory, Declared.patternSet, List.filterMap_append, *]
    | DefaultValuesRequiredForOptional =>
      refine ⟨{ d with defaultValuesRequiredForOptional := true }, rfl, e1, e2, e3, ?_, ?_, ?_, ?_, ?_, ?_⟩ <;>
        simp [Declared.required, Declared.defaults, Declared.allowed, Declared.description,
          Declared.defaultsMandatory, Declared.patternSet, List.filterMap_append, *]
    | AllowedValues vals =>
      refine ⟨{ d with allowedVals := vals }, rfl, e1, e2, e3, ?_, ?_, ?_, ?_, ?_, ?_⟩ <;>
        simp [Declared.required, Declared.defaults, Declared.allowed, Declared.description,
          Declared.defaultsMandatory, Declared.patternSet, List.filterMap_append, *]
    | StringRegex regex =>
      by_cases hr : regex = ""
      · refine ⟨d, by simp [FlagOption.run, hr], e1, e2, e3, ?_, ?_, ?_, ?_, ?_, ?_⟩ <;>
          simp [Declared.required, Declared.defaults, Declared.allowed, Declared.description,
            Declared.defaultsMandatory, Declared.patternSet, List.filterMap_append, *]
      · have hc := (hre regex (by simp)).resolve_left hr
        obtain ⟨re, hre'⟩ := Option.isSome_iff_exists.mp hc
        refine ⟨{ d with strRegex := some re }, by simp [FlagOption.run, hr, hre'],
          e1, e2, e3, ?_, ?_, ?_, ?_, ?_, ?_⟩ <;>
          simp [Declared.required, Declared.defaults, Declared.allowed, Declared.description,
            Declared.defaultsMandatory, Declared.patternSet, List.filterMap_append, *]

/-- When the option loop succeeds, every pattern in it was empty or compiled. -/
theorem applyOpts_ok_compiles (L : StdLib) (opts : List FlagOption) (fc d : FlagDef)
    (h : applyOpts L opts fc = .ok d) :
    ∀ r, FlagOption.StringRegex r ∈ opts → r = "" ∨ (L.Compile r).isSome = true := by
  induction opts generalizing fc with
  | nil => intro r hr; cases hr
  | cons o os ih =>
    intro r hr
    simp only [applyOpts] at h
    cases ho : o.run L fc with
    | error e => simp [ho] at h
    | ok fc' =>
      simp only [ho] at h
      rcases List.mem_cons.mp hr with rfl | hr'
      · by_cases hr0 : r = ""
        · exact Or.inl hr0
        · right
          simp only [FlagOption.run, hr0, if_false] at ho
          cases hc : L.Compile r with
          | none => simp [hc] at ho
          | some re => rfl
      · exact ih fc' h r hr'

/-- The fields of a flag that `New` returned. -/
theorem New_ok_fields (L : StdLib) (shortName longName : String)
    (flagType : FlagType) (opts : List FlagOption) (flag : FlagDef)
    (h : New L shortName longName flagType opts = .ok flag) :
    flag.shortName = strings.Trim shortName " " ∧ flag.longName = strings.Trim longName " " ∧
      flag.flagType = flagType ∧ flag.required = Declared.required opts ∧
      flag.defaultVals = Declared.defaults opts ∧
      flag.desc = Declared.description opts ∧
      flag.allowedVals = Declared.allowed opts ∧
      ¬ (flag.shortName = "" ∧ flag.longName = "") ∧
      ¬ (flag.required = true ∧ flag.defaultVals ≠ []) ∧
      (flag.flagType = BOOL_FLAG → flag.allowedVals = []) ∧
      (flag.flagType = BOOL_FLAG ∨ flag.flagType = NUMBER_FLAG → flag.strRegex = none) := by
  unfold New at h
  simp only at h
  split_ifs at h with h1
  split at h
  · cases h
  · rename_i d hd
    obtain ⟨d', hd', e1, e2, e3, e4, e5, e6, e7, -, -⟩ :=
      applyOpts_spec L opts
        { shortName := strings.Trim shortName " ", longName := strings.Trim longName " ",
          desc := "", flagType := flagType, required := false, defaultVals := [],
          allowedVals := [], strRegex := none, defaultValuesRequiredForOptional := false }
        (applyOpts_ok_compiles L opts _ d hd) ⟨rfl, rfl, rfl, rfl, rfl, rfl⟩
    rw [hd] at hd'
    cases hd'
    split_ifs at h with h2 h3 h4 h5
    cases h
    refine ⟨e1, e2, e3, e4, e5, e7, e6, ?_, ?_, ?_, ?_⟩
    · rw [e1, e2]; exact h1
    · intro hh
      exact h2 ⟨hh.1, List.length_pos.mpr hh.2⟩
    · intro hb
      by_contra hne
      exact h4 ⟨List.length_pos.mpr hne, by simp [hb]⟩
    · intro hb
      cases hs : flag.strRegex with
      | none => rfl
      | some re =>
        exfalso
        apply h5
        refine ⟨by simp [hs], ?_⟩
        rcases hb with hb | hb <;> simp [hb]

/-- C1. `flagdef.New`, when every pattern option is empty or compiles, fails
exactly when the declaration breaks one of the five construction rules: no
name left after trimming spaces; required together with defaults; defaults
mandatory but an optional flag has none; a whitelist on a boolean; a pattern on
a boolean or a number. Every failure is `INVALID_USAGE`, and no constructed
flag is both required and carrying defaults. -/
theorem New_fails_iff_rule_broken (L : StdLib) (shortName longName : String)
    (flagType : FlagType) (opts : List FlagOption)
    (hre : ∀ r, FlagOption.StringRegex r ∈ opts → r = "" ∨ (L.Compile r).isSome = true) :
    ((∃ err, New L shortName longName flagType opts = .error err) ↔
      ((strings.Trim shortName " " = "" ∧ strings.Trim longName " " = "") ∨
       (Declared.required opts = true ∧ Declared.defaults opts ≠ []) ∨
       (Declared.defaultsMandatory opts = true ∧ Declared.required opts = false ∧
          Declared.defaults opts = []) ∨
       (Declared.allowed opts ≠ [] ∧ flagType = BOOL_FLAG) ∨
       (Declared.patternSet opts = true ∧ (flagType = BOOL_FLAG ∨ flagType = NUMBER_FLAG)))) ∧
    (∀ err, New L shortName longName flagType opts = .error err → err.Code = INVALID_USAGE) ∧
    (∀ flag, New L shortName longName flagType opts = .ok flag →
      ¬ (flag.Required = true ∧ flag.DefaultValues ≠ [])) := by
  obtain ⟨d, hd, -, -, e3, e4, e5, e6, -, e8, e9⟩ :=
    applyOpts_spec L opts
      { shortName := strings.Trim shortName " ", longName := strings.Trim longName " ",
        desc := "", flagType := flagType, required := false, defaultVals := [],
        allowedVals := [], strRegex := none, defaultValuesRequiredForOptional := false }
      hre ⟨rfl, rfl, rfl, rfl, rfl, rfl⟩
  simp only at e3
  unfold New
  simp only [hd]
  rw [← e4, ← e5, ← e6, ← e8, ← e9, ← e3]
  have hlen : ∀ l : List String, l.length > 0 ↔ l ≠ [] := fun l => by
    cases l <;> simp
  have hlen0 : ∀ l : List String, l.length = 0 ↔ l = [] := fun l => by
    cases l <;> simp
  refine ⟨?_, ?_, ?_⟩
  · simp only [hlen, hlen0]
    split_ifs with h1 h2 h3 h4 h5
    · simp [h1]
    · simp [h2]
    · have : d.required = false := by simpa using h3.2.1
      simp [h3.1, this, h3.2.2]
    · have : d.flagType = BOOL_FLAG := by simpa using h4.2
      simp [h4.1, this]
    · have : d.flagType = BOOL_FLAG ∨ d.flagType = NUMBER_FLAG := by simpa using h5.2
      simp [h5.1, this]
    · simp only [reduceCtorEq, exists_false, false_iff, not_or]
      refine ⟨h1, h2, ?_, ?_, ?_⟩
      · intro h; exact h3 ⟨h.1, by simp [h.2.1], h.2.2⟩
      · intro h; exact h4 ⟨h.1, by simp [h.2]⟩
      · intro h; exact h5 ⟨h.1, by simpa using h.2⟩
  · intro err
    split_ifs <;> intro h <;> first
      | (cases h; rfl)
      | cases h
  · intro flag
    simp only [hlen, FlagDef.Required, FlagDef.DefaultValues]
    split_ifs with h1 h2 h3 h4 h5 <;> intro h
    · cases h
    · cases h
    · cases h
    · cases h
    · cases h
    · cases h
      exact h2

/-- C2, as stated: the accessors do not always give back the names as they
were passed, because `New` trims surrounding spaces. -/
theorem New_short_name_not_unchanged :
    ¬ ∀ (L : StdLib) (shortName longName : String) (flagType : FlagType)
        (opts : List FlagOption) (flag : FlagDef),
        New L shortName longName flagType opts = .ok flag →
          flag.ShortName = shortName ∧ flag.LongName = longName ∧ flag.Type = flagType ∧
          flag.Required = Declared.required opts ∧
          flag.DefaultValues = Declared.defaults opts ∧
          flag.Description = Declared.description opts := by
  intro h
  have := h ⟨fun _ => false, fun _ => none⟩ " v" "" STRING_FLAG []
    { shortName := "v", longName := "", desc := "", flagType := STRING_FLAG,
      required := false, defaultVals := [], allowedVals := [], strRegex := none,
      defaultValuesRequiredForOptional := false } rfl
  exact absurd this.1 (by decide)

/-- C2, amended. For every call of `flagdef.New` that succeeds the accessors
return the declared attributes, the two names with their surrounding spaces
trimmed: `ShortName()` and `LongName()` are the trimmed arguments, `Type()` is
the type, and `Required()`, `DefaultValues()` and `Description()` are what the
last option of each kind declared. -/
theorem New_accessors_round_trip (L : StdLib) (shortName longName : String)
    (flagType : FlagType) (opts : List FlagOption) (flag : FlagDef)
    (h : New L shortName longName flagType opts = .ok flag) :
    flag.ShortName = strings.Trim shortName " " ∧ flag.LongName = strings.Trim longName " " ∧
      flag.Type = flagType ∧ flag.Required = Declared.required opts ∧
      flag.DefaultValues = Declared.defaults opts ∧
      flag.Description = Declared.description opts := by
  obtain ⟨e1, e2, e3, e4, e5, e7, -⟩ := New_ok_fields L shortName longName flagType opts flag h
  exact ⟨e1, e2, e3, e4, e5, e7⟩

/-- C1 on a declaration that is required and has a default: every pattern
option is empty, and `New` fails. -/
theorem New_fails_iff_rule_broken_witness :
    (∀ r, FlagOption.StringRegex r ∈
        [FlagOption.Required true, FlagOption.StringRegex "", FlagOption.DefaultValues ["x"]] →
        r = "" ∨ (exampleLib.Compile r).isSome = true) ∧
    (∃ err, New exampleLib "s" "short" STRING_FLAG
        [FlagOption.Required true, FlagOption.StringRegex "", FlagOption.DefaultValues ["x"]]
        = .error err) :=
  ⟨by intro r hr; simp at hr; exact Or.inl hr,
   (New_fails_iff_rule_broken exampleLib "s" "short" STRING_FLAG
      [FlagOption.Required true, FlagOption.StringRegex "", FlagOption.DefaultValues ["x"]]
      (by intro r hr; simp at hr; exact Or.inl hr)).1.mpr (Or.inr (Or.inl (by decide)))⟩

/-- The amended C2 on a declaration with spaces around the short name and two
`DefaultValues` options. -/
theorem New_accessors_round_trip_witness :
    New exampleLib " s " "short" NUMBER_FLAG
        [FlagOption.DefaultValues ["1"], FlagOption.Description "d", FlagOption.DefaultValues ["2", "3"]]
      = .ok
        { shortName := "s", longName := "short", desc := "d", flagType := NUMBER_FLAG,
          required := false, defaultVals := ["2", "3"], allowedVals := [], strRegex := none,
          defaultValuesRequiredForOptional := false } ∧
    FlagDef.ShortName
        { shortName := "s", longName := "short", desc := "d", flagType := NUMBER_FLAG,
          required := false, defaultVals := ["2", "3"], allowedVals := [], strRegex := none,
          defaultValuesRequiredForOptional := false } = strings.Trim " s " " " :=
  ⟨rfl, (New_accessors_round_trip exampleLib " s " "short" NUMBER_FLAG
      [FlagOption.DefaultValues ["1"], FlagOption.Description "d", FlagOption.DefaultValues ["2", "3"]]
      _ rfl).1⟩

/-! ## The matcher, one step at a time -/

section Steps

variable (L : StdLib) (flag : FlagDef)

/-- The scan ends when no token is left. -/
theorem loop_nil (values remaining : List String) :
    flagValueLoop L flag [] values remaining = .ok (values, remaining) := by
  rw [flagValueLoop]

/-- A boolean head followed by `true` or `false` takes it as the value. -/
theorem loop_bool_explicit {tok nxt : String} (rest values remaining : List String)
    (h1 : isHead flag tok = true) (h2 : flag.Type = BOOL_FLAG)
    (h3 : flag.Validate L nxt = none) :
    flagValueLoop L flag (tok :: nxt :: rest) values remaining =
      flagValueLoop L flag rest (values ++ [nxt]) remaining := by
  rw [flagValueLoop]; simp only [h1, h2, h3, if_true]

/-- A boolean head followed by anything else stores `true` and leaves the
following token to be scanned. -/
theorem loop_bool_implicit {tok nxt : String} {err : Error} (rest values remaining : List String)
    (h1 : isHead flag tok = true) (h2 : flag.Type = BOOL_FLAG)
    (h3 : flag.Validate L nxt = some err) :
    flagValueLoop L flag (tok :: nxt :: rest) values remaining =
      flagValueLoop L flag (nxt :: rest) (values ++ ["true"]) remaining := by
  rw [flagValueLoop]; simp only [h1, h2, h3, if_true]

/-- A boolean head at the end stores `true`. -/
theorem loop_bool_last {tok : String} (values remaining : List String)
    (h1 : isHead flag tok = true) (h2 : flag.Type = BOOL_FLAG) :
    flagValueLoop L flag [tok] values remaining = .ok (values ++ ["true"], remaining) := by
  rw [flagValueLoop]; simp only [h1, h2, if_true]; rw [flagValueLoop]

/-- A non-boolean head takes a valid following token that does not start with
a dash. -/
theorem loop_value_ok {tok nxt : String} (rest values remaining : List String)
    (h1 : isHead flag tok = true) (h2 : ¬ flag.Type = BOOL_FLAG)
    (h3 : ¬ strings.HasPrefix nxt "-" = true) (h4 : flag.Validate L nxt = none) :
    flagValueLoop L flag (tok :: nxt :: rest) values remaining =
      flagValueLoop L flag rest (values ++ [nxt]) remaining := by
  rw [flagValueLoop]; simp [h1, h2, h3, h4]

/-- A non-boolean head fails on an invalid following token. -/
theorem loop_value_invalid {tok nxt : String} {err : Error} (rest values remaining : List String)
    (h1 : isHead flag tok = true) (h2 : ¬ flag.Type = BOOL_FLAG)
    (h3 : ¬ strings.HasPrefix nxt "-" = true) (h4 : flag.Validate L nxt = some err) :
    flagValueLoop L flag (tok :: nxt :: rest) values remaining = .error err := by
  rw [flagValueLoop]; simp [h1, h2, h3, h4]

/-- A non-boolean head fails when the following token starts with a dash. -/
theorem loop_value_dash {tok nxt : String} (rest values remaining : List String)
    (h1 : isHead flag tok = true) (h2 : ¬ flag.Type = BOOL_FLAG)
    (h3 : ¬ ¬ strings.HasPrefix nxt "-" = true) :
    flagValueLoop L flag (tok :: nxt :: rest) values remaining =
      .error (NewError INVAID_VALUE) := by
  rw [flagValueLoop]; simp only [h1, h2, h3, if_true, if_false]

/-- A non-boolean head at the end fails. -/
theorem loop_value_last {tok : String} (values remaining : List String)
    (h1 : isHead flag tok = true) (h2 : ¬ flag.Type = BOOL_FLAG) :
    flagValueLoop L flag [tok] values remaining = .error (NewError INVAID_VALUE) := by
  rw [flagValueLoop]; simp only [h1, h2, if_true, if_false]

/-- An equals-form token stores the valid text after its first `=`. -/
theorem loop_equals_ok {tok : String} (rest values remaining : List String)
    (h1 : ¬ isHead flag tok = true) (h2 : isEqualsForm flag tok = true)
    (h3 : flag.Validate L (strings.sliceFrom tok (strings.Index tok "=" + 1)) = none) :
    flagValueLoop L flag (tok :: rest) values remaining =
      flagValueLoop L flag rest
        (values ++ [strings.sliceFrom tok (strings.Index tok "=" + 1)]) remaining := by
  rw [flagValueLoop.eq_def]; simp [h1, h2, h3]

/-- An equals-form token fails on an invalid value. -/
theorem loop_equals_invalid {tok : String} {err : Error} (rest values remaining : List String)
    (h1 : ¬ isHead flag tok = true) (h2 : isEqualsForm flag tok = true)
    (h3 : flag.Validate L (strings.sliceFrom tok (strings.Index tok "=" + 1)) = some err) :
    flagValueLoop L flag (tok :: rest) values remaining = .error err := by
  rw [flagValueLoop.eq_def]; simp [h1, h2, h3]

/-- Any other token goes to the remainder. -/
theorem loop_other {tok : String} (rest values remaining : List String)
    (h1 : ¬ isHead flag tok = true) (h2 : ¬ isEqualsForm flag tok = true) :
    flagValueLoop L flag (tok :: rest) values remaining =
      flagValueLoop L flag rest values (remaining ++ [tok]) := by
  rw [flagValueLoop.eq_def]; simp [h1, h2]

end Steps

/-- The scan loop only ever appends to what it was given. -/
theorem flagValueLoop_prepend (L : StdLib) (flag : FlagDef) (args values remaining : List String) :
    ∀ v0 r0 : List String,
    flagValueLoop L flag args (v0 ++ values) (r0 ++ remaining) =
      match flagValueLoop L flag args values remaining with
      | .error err => .error err
      | .ok (vs, rm) => .ok (v0 ++ vs, r0 ++ rm) := by
  induction args, values, remaining using flagValueLoop.induct L flag with
  | case1 values remaining => simp [loop_nil]
  | case2 tok values remaining h1 h2 nxt rest' h3 ih =>
    intro v0 r0
    rw [loop_bool_explicit L flag _ _ _ h1 h2 h3, loop_bool_explicit L flag _ _ _ h1 h2 h3,
      List.append_assoc, ih]
  | case3 tok values remaining h1 h2 nxt rest' val h3 ih =>
    intro v0 r0
    rw [loop_bool_implicit L flag _ _ _ h1 h2 h3, loop_bool_implicit L flag _ _ _ h1 h2 h3,
      List.append_assoc, ih]
  | case4 tok values remaining h1 h2 ih =>
    intro v0 r0
    rw [loop_bool_last L flag _ _ h1 h2, loop_bool_last L flag _ _ h1 h2, List.append_assoc]
  | case5 tok values remaining h1 h2 nxt rest' h3 err h4 =>
    intro v0 r0
    rw [loop_value_invalid L flag _ _ _ h1 h2 h3 h4, loop_value_invalid L flag _ _ _ h1 h2 h3 h4]
  | case6 tok values remaining h1 h2 nxt rest' h3 h4 ih =>
    intro v0 r0
    rw [loop_value_ok L flag _ _ _ h1 h2 h3 h4, loop_value_ok L flag _ _ _ h1 h2 h3 h4,
      List.append_assoc, ih]
  | case7 tok values remaining h1 h2 nxt rest' h3 =>
    intro v0 r0
    rw [loop_value_dash L flag _ _ _ h1 h2 h3, loop_value_dash L flag _ _ _ h1 h2 h3]
  | case8 tok values remaining h1 h2 =>
    intro v0 r0
    rw [loop_value_last L flag _ _ h1 h2, loop_value_last L flag _ _ h1 h2]
  | case9 tok rest values remaining h1 h2 eqIndx value err h3 =>
    intro v0 r0
    rw [loop_equals_invalid L flag _ _ _ h1 h2 h3, loop_equals_invalid L flag _ _ _ h1 h2 h3]
  | case10 tok rest values remaining h1 h2 eqIndx value h3 ih =>
    intro v0 r0
    rw [loop_equals_ok L flag _ _ _ h1 h2 h3, loop_equals_ok L flag _ _ _ h1 h2 h3,
      List.append_assoc, ih]
  | case11 tok rest values remaining h1 h2 ih =>
    intro v0 r0
    rw [loop_other L flag _ _ _ h1 h2, loop_other L flag _ _ _ h1 h2, List.append_assoc, ih]

/-- A scan over tokens none of which names the flag keeps them all. -/
theorem flagValueLoop_no_match (L : StdLib) (flag : FlagDef) (args : List String)
    (h : ∀ tok ∈ args, ¬ isHead flag tok = true ∧ ¬ isEqualsForm flag tok = true) :
    ∀ values remaining : List String,
      flagValueLoop L flag args values remaining = .ok (values, remaining ++ args) := by
  induction args with
  | nil => intro values remaining; simp [loop_nil]
  | cons tok rest ih =>
    intro values remaining
    have ht := h tok (List.mem_cons_self _ _)
    rw [loop_other L flag _ _ _ ht.1 ht.2,
      ih (fun t hmem => h t (List.mem_cons_of_mem _ hmem))]
    simp

/-- What the scan leaves is what it was given followed by a subsequence of the
tokens it scanned. -/
theorem flagValueLoop_sublist (L : StdLib) (flag : FlagDef) (args values remaining : List String) :
    ∀ vs rm, flagValueLoop L flag args values remaining = .ok (vs, rm) →
      ∃ rm', rm = remaining ++ rm' ∧ rm'.Sublist args := by
  induction args, values, remaining using flagValueLoop.induct L flag with
  | case1 values remaining =>
    intro vs rm h
    rw [loop_nil] at h
    cases h
    exact ⟨[], by simp, List.Sublist.refl _⟩
  | case2 tok values remaining h1 h2 nxt rest' h3 ih =>
    intro vs rm h
    rw [loop_bool_explicit L flag _ _ _ h1 h2 h3] at h
    obtain ⟨rm', e, hs⟩ := ih vs rm h
    exact ⟨rm', e, (hs.cons _).cons _⟩
  | case3 tok values remaining h1 h2 nxt rest' val h3 ih =>
    intro vs rm h
    rw [loop_bool_implicit L flag _ _ _ h1 h2 h3] at h
    obtain ⟨rm', e, hs⟩ := ih vs rm h
    exact ⟨rm', e, hs.cons _⟩
  | case4 tok values remaining h1 h2 ih =>
    intro vs rm h
    rw [loop_bool_last L flag _ _ h1 h2] at h
    cases h
    exact ⟨[], by simp, List.nil_sublist _⟩
  | case5 tok values remaining h1 h2 nxt rest' h3 err h4 =>
    intro vs rm h
    rw [loop_value_invalid L flag _ _ _ h1 h2 h3 h4] at h
    cases h
  | case6 tok values remaining h1 h2 nxt rest' h3 h4 ih =>
    intro vs rm h
    rw [loop_value_ok L flag _ _ _ h1 h2 h3 h4] at h
    obtain ⟨rm', e, hs⟩ := ih vs rm h
    exact ⟨rm', e, (hs.cons _).cons _⟩
  | case7 tok values remaining h1 h2 nxt rest' h3 =>
    intro vs rm h
    rw [loop_value_dash L flag _ _ _ h1 h2 h3] at h
    cases h
  | case8 tok values remaining h1 h2 =>
    intro vs rm h
    rw [loop_value_last L flag _ _ h1 h2] at h
    cases h
  | case9 tok rest values remaining h1 h2 eqIndx value err h3 =>
    intro vs rm h
    rw [loop_equals_invalid L flag _ _ _ h1 h2 h3] at h
    cases h
  | case10 tok rest values remaining h1 h2 eqIndx value h3 ih =>
    intro vs rm h
    rw [loop_equals_ok L flag _ _ _ h1 h2 h3] at h
    obtain ⟨rm', e, hs⟩ := ih vs rm h
    exact ⟨rm', e, hs.cons _⟩
  | case11 tok rest values remaining h1 h2 ih =>
    intro vs rm h
    rw [loop_other L flag _ _ _ h1 h2] at h
    obtain ⟨rm', e, hs⟩ := ih vs rm h
    exact ⟨tok :: rm', by simp [e], hs.cons₂ _⟩

/-- The three ways `flagValue` ends, read off the scan. -/
theorem flagValue_ok_iff (L : StdLib) (flag : FlagDef) (cmdArgs vals rem : List String) :
    flagValue L flag cmdArgs = .ok (vals, rem) ↔
      ∃ vs, flagValueLoop L flag cmdArgs [] [] = .ok (vs, rem) ∧
        ((vs ≠ [] ∧ vals = vs) ∨
         (vs = [] ∧ flag.Required = false ∧ vals = flag.DefaultValues)) := by
  unfold flagValue
  cases hl : flagValueLoop L flag cmdArgs [] [] with
  | error e => simp
  | ok p =>
    obtain ⟨vs, rm⟩ := p
    cases vs with
    | nil =>
      cases hr : flag.Required <;> cases hd : flag.DefaultValues <;>
        simp [hr, hd] <;> aesop
    | cons v vs => simp; aesop

/-- What one matching pass leaves is a subsequence of what it was given. -/
theorem flagValue_sublist (L : StdLib) (flag : FlagDef) (cmdArgs vals rem : List String)
    (h : flagValue L flag cmdArgs = .ok (vals, rem)) : rem.Sublist cmdArgs := by
  obtain ⟨vs, hl, -⟩ := (flagValue_ok_iff L flag cmdArgs vals rem).mp h
  obtain ⟨rm', e, hs⟩ := flagValueLoop_sublist L flag cmdArgs [] [] vs rem hl
  simpa [e] using hs

/-! ## The parse engine -/

/-- The flag loop over `pre ++ post` runs `pre`, then `post` from the next
index on. -/
theorem parseLoop_append (L : StdLib) (pre post : List FlagDef) :
    ∀ (id : Nat) (result : Result) (remaining : List String),
    parseLoop L (pre ++ post) id result remaining =
      match parseLoop L pre id result remaining with
      | .error err => .error err
      | .ok (result', remaining') => parseLoop L post (id + pre.length) result' remaining' := by
  induction pre with
  | nil => intro id result remaining; simp [parseLoop]
  | cons f fs ih =>
    intro id result remaining
    simp only [List.cons_append, parseLoop]
    cases hv : flagValue L f remaining with
    | error e => simp
    | ok p =>
      obtain ⟨vals, rem⟩ := p
      simp only [List.append_eq]
      rw [ih]
      simp [Nat.add_assoc, Nat.add_comm 1]

/-- What the flag loop leaves is a subsequence of what it was given. -/
theorem parseLoop_sublist (L : StdLib) (flags : List FlagDef) :
    ∀ (id : Nat) (result result' : Result) (remaining remaining' : List String),
    parseLoop L flags id result remaining = .ok (result', remaining') →
      remaining'.Sublist remaining := by
  induction flags with
  | nil =>
    intro id result result' remaining remaining' h
    simp only [parseLoop] at h
    cases h
    exact List.Sublist.refl _
  | cons f fs ih =>
    intro id result result' remaining remaining' h
    simp only [parseLoop] at h
    cases hv : flagValue L f remaining with
    | error e => simp [hv] at h
    | ok p =>
      obtain ⟨vals, rem⟩ := p
      simp only [hv] at h
      have hs := flagValue_sublist L f remaining vals rem hv
      exact (ih _ _ _ _ _ h).trans hs

/-- A successful `Parse` is a successful flag loop followed by a passed (or
skipped) unrecognized-flag check. -/
theorem Parse_ok_iff (L : StdLib) (flagDef : List FlagDef) (cmdArgs : List String)
    (allow : Bool) (res : Result) :
    Parse L flagDef cmdArgs allow = .ok res ↔
      ∃ result remaining,
        parseLoop L flagDef 0 { FlagValuesForID := [], FlagsNameToID := [], NonFlagArgs := [] }
          cmdArgs = .ok (result, remaining) ∧
        (allow = true ∨ remaining.any unrecognized = false) ∧
        res = { result with NonFlagArgs := remaining } := by
  unfold Parse
  simp only
  cases hl : parseLoop L flagDef 0 { FlagValuesForID := [], FlagsNameToID := [], NonFlagArgs := [] }
      cmdArgs with
  | error e => simp
  | ok p =>
    obtain ⟨result, remaining⟩ := p
    simp only
    split_ifs with hc
    · simp only [reduceCtorEq, Except.ok.injEq, Prod.mk.injEq, exists_and_left, false_iff,
        not_exists, not_and]
      rintro r rm ⟨rfl, rfl⟩ hh
      rcases hh with hh | hh
      · simp [hh] at hc
      · rw [hh] at hc; simp at hc
    · simp only [Except.ok.injEq, Prod.mk.injEq]
      constructor
      · intro h
        refine ⟨result, remaining, ⟨rfl, rfl⟩, ?_, h.symm⟩
        by_cases ha : allow = true
        · exact Or.inl ha
        · right
          by_contra hne
          exact hc ⟨by simpa using ha, by simpa using hne⟩
      · rintro ⟨r, rm, ⟨rfl, rfl⟩, -, rfl⟩
        rfl

/-- C10. For every successful `parse.Parse`, `NonFlagArgs` is a subsequence of
the argument vector: only input tokens, in their original relative order, none
duplicated or invented. -/
theorem Parse_nonFlagArgs_sublist (L : StdLib) (flagDef : List FlagDef)
    (cmdArgs : List String) (allowUnrecognizedFlags : Bool) (res : Result)
    (h : Parse L flagDef cmdArgs allowUnrecognizedFlags = .ok res) :
    res.NonFlagArgs.Sublist cmdArgs := by
  obtain ⟨result, remaining, hl, -, rfl⟩ := (Parse_ok_iff L flagDef cmdArgs _ res).mp h
  exact parseLoop_sublist L flagDef _ _ _ _ _ hl

/-! ## Tokens and names -/

/-- The example flags are flags `flagdef.New` builds. -/
theorem example_flags_constructed :
    New exampleLib "s" "short" STRING_FLAG [.AllowedValues ["foo", "bar"]] = .ok flagShort ∧
    New exampleLib "t" "type" NUMBER_FLAG [.DefaultValues ["123"]] = .ok flagT ∧
    New exampleLib "v" "" BOOL_FLAG [] = .ok flagV ∧
    New exampleLib "n" "" NUMBER_FLAG [] = .ok flagN ∧
    New exampleLib "r" "" STRING_FLAG [.Required true] = .ok flagR ∧
    New exampleLib "" "name" STRING_FLAG [.Required true] = .ok flagName :=
  ⟨rfl, rfl, rfl, rfl, rfl, rfl⟩


/-- The characters of `"-" ++ s`. -/
theorem dash_append_data (s : String) : ("-" ++ s).data = '-' :: s.data := by
  simp [String.data_append]

/-- The characters of `"--" ++ s`. -/
theorem dashdash_append_data (s : String) : ("--" ++ s).data = '-' :: '-' :: s.data := by
  simp [String.data_append]

/-- The token `-z` names no flag whose short name is not `z`. -/
theorem dash_z_no_match (flag : FlagDef) (h : flag.ShortName ≠ "z") :
    ¬ isHead flag "-z" = true ∧ ¬ isEqualsForm flag "-z" = true := by
  have hd : flag.ShortName.data ≠ ['z'] := fun hh => h (String.ext hh)
  constructor
  · simp only [isHead, decide_eq_true_eq, String.ext_iff, dash_append_data, dashdash_append_data]
    simp [hd]
    intro hh
    exact hd hh.symm
  · simp only [isEqualsForm, strings.HasPrefix, decide_eq_true_eq, String.data_append,
      dash_append_data, dashdash_append_data]
    simp
    cases hs : flag.ShortName.data with
    | nil => simp
    | cons c cs => cases cs <;> simp

/-- A required flag that no token names fails its matching pass. -/
theorem flagValue_required_missing (L : StdLib) (flag : FlagDef) (args : List String)
    (hreq : flag.Required = true)
    (hno : ∀ tok ∈ args, ¬ isHead flag tok = true ∧ ¬ isEqualsForm flag tok = true) :
    flagValue L flag args = .error (NewError INVALID_USAGE) := by
  unfold flagValue
  rw [flagValueLoop_no_match L flag args hno]
  simp [hreq]

/-- An optional flag that no token names passes, keeps every token, and yields
its defaults. -/
theorem flagValue_optional_missing (L : StdLib) (flag : FlagDef) (args : List String)
    (hreq : flag.Required = false)
    (hno : ∀ tok ∈ args, ¬ isHead flag tok = true ∧ ¬ isEqualsForm flag tok = true) :
    flagValue L flag args = .ok (flag.DefaultValues, args) := by
  unfold flagValue
  rw [flagValueLoop_no_match L flag args hno]
  cases hd : flag.DefaultValues <;> simp [hreq, hd]

/-- A failing flag loop makes `Parse` fail with the same error. -/
theorem Parse_error_of_parseLoop (L : StdLib) (flagDef : List FlagDef) (cmdArgs : List String)
    (allow : Bool) (err : Error)
    (h : parseLoop L flagDef 0 { FlagValuesForID := [], FlagsNameToID := [], NonFlagArgs := [] }
      cmdArgs = .error err) :
    Parse L flagDef cmdArgs allow = .error err := by
  unfold Parse
  simp only [h]

/-- C3, amended. When the flag list contains a required flag `f` and no token
of the argument vector names `f`, `parse.Parse` fails, whatever the other flags
and the unrecognized-flag setting; the failure is `INVALID_USAGE` whenever the
matching passes of the flags declared before `f` all succeed (in particular
when `f` is declared first), and is the error of the first failing one of
those passes otherwise. -/
theorem Parse_required_missing (L : StdLib) (pre post : List FlagDef) (f : FlagDef)
    (cmdArgs : List String) (allowUnrecognizedFlags : Bool)
    (hreq : f.Required = true)
    (hno : ∀ tok ∈ cmdArgs,
      tok ≠ "-" ++ f.ShortName ∧ tok ≠ "--" ++ f.LongName ∧
      strings.HasPrefix tok ("-" ++ f.ShortName ++ "=") = false ∧
      strings.HasPrefix tok ("--" ++ f.LongName ++ "=") = false) :
    (∃ err, Parse L (pre ++ f :: post) cmdArgs allowUnrecognizedFlags = .error err) ∧
    ((∃ res, Parse L pre cmdArgs true = .ok res) →
      Parse L (pre ++ f :: post) cmdArgs allowUnrecognizedFlags =
        .error (NewError INVALID_USAGE)) ∧
    (∀ err, Parse L pre cmdArgs true = .error err →
      Parse L (pre ++ f :: post) cmdArgs allowUnrecognizedFlags = .error err) := by
  have hno' : ∀ tok ∈ cmdArgs, ¬ isHead f tok = true ∧ ¬ isEqualsForm f tok = true := by
    intro tok ht
    obtain ⟨a, b, c, d⟩ := hno tok ht
    simp [isHead, isEqualsForm, a, b, c, d]
  have key : ∀ result remaining,
      parseLoop L pre 0 { FlagValuesForID := [], FlagsNameToID := [], NonFlagArgs := [] }
        cmdArgs = .ok (result, remaining) →
      Parse L (pre ++ f :: post) cmdArgs allowUnrecognizedFlags =
        .error (NewError INVALID_USAGE) := by
    intro result remaining hl
    apply Parse_error_of_parseLoop
    rw [parseLoop_append, hl]
    simp only [parseLoop]
    have hs := parseLoop_sublist L pre _ _ _ _ _ hl
    rw [flagValue_required_missing L f remaining hreq
      (fun tok ht => hno' tok (hs.subset ht))]
  refine ⟨?_, ?_, ?_⟩
  · cases hl : parseLoop L pre 0 { FlagValuesForID := [], FlagsNameToID := [], NonFlagArgs := [] }
      cmdArgs with
    | error e =>
      refine ⟨e, ?_⟩
      apply Parse_error_of_parseLoop
      rw [parseLoop_append, hl]
    | ok p => exact ⟨_, key p.1 p.2 hl⟩
  · rintro ⟨res, hres⟩
    obtain ⟨result, remaining, hl, -, -⟩ := (Parse_ok_iff L pre cmdArgs true res).mp hres
    exact key result remaining hl
  · intro err herr
    cases hl : parseLoop L pre 0 { FlagValuesForID := [], FlagsNameToID := [], NonFlagArgs := [] }
      cmdArgs with
    | error e =>
      have he : Parse L pre cmdArgs true = .error e := Parse_error_of_parseLoop L pre _ true _ hl
      rw [he] at herr
      cases herr
      apply Parse_error_of_parseLoop
      rw [parseLoop_append, hl]
    | ok p =>
      have hok : Parse L pre cmdArgs true = .ok { p.1 with NonFlagArgs := p.2 } :=
        (Parse_ok_iff L pre cmdArgs true _).mpr ⟨p.1, p.2, hl, Or.inl rfl, rfl⟩
      rw [hok] at herr
      cases herr

/-- The flag loop on the single token `-z`, when no flag has short name `z`:
a required flag makes it fail with `INVALID_USAGE`, otherwise the token
survives. -/
theorem parseLoop_dash_z (L : StdLib) (flags : List FlagDef)
    (hz : ∀ f ∈ flags, f.ShortName ≠ "z") :
    ∀ (id : Nat) (result : Result),
      (parseLoop L flags id result ["-z"] = .error (NewError INVALID_USAGE) ∧
        ∃ f ∈ flags, f.Required = true) ∨
      ((∃ result', parseLoop L flags id result ["-z"] = .ok (result', ["-z"])) ∧
        ∀ f ∈ flags, f.Required = false) := by
  induction flags with
  | nil =>
    intro id result
    right
    exact ⟨⟨result, by simp [parseLoop]⟩, by simp⟩
  | cons f fs ih =>
    intro id result
    have hno : ∀ tok ∈ ["-z"], ¬ isHead f tok = true ∧ ¬ isEqualsForm f tok = true := by
      intro tok ht
      rw [List.mem_singleton] at ht
      subst ht
      exact dash_z_no_match f (hz f (List.mem_cons_self _ _))
    cases hreq : f.Required with
    | true =>
      left
      refine ⟨?_, f, List.mem_cons_self _ _, hreq⟩
      simp only [parseLoop]
      rw [flagValue_required_missing L f _ hreq hno]
    | false =>
      simp only [parseLoop]
      rw [flagValue_optional_missing L f _ hreq hno]
      simp only
      rcases ih (fun g hg => hz g (List.mem_cons_of_mem _ hg)) (id + 1)
          (register result f id f.DefaultValues) with ⟨h1, g, hg, hgr⟩ | ⟨h1, h2⟩
      · left
        exact ⟨h1, g, List.mem_cons_of_mem _ hg, hgr⟩
      · right
        refine ⟨h1, ?_⟩
        intro g hg
        rcases List.mem_cons.mp hg with rfl | hg
        · exact hreq
        · exact h2 g hg

/-- C6. On the input `["-z"]`, for every list of flags none of which has short
name `z`: with the unrecognized-flag policy enabled `parse.Parse` fails with
`INVALID_USAGE`; with the policy disabled and no required flag declared it
succeeds and `NonFlagArgs` is exactly `["-z"]`. -/
theorem Parse_dash_z_policy (L : StdLib) (flagDef : List FlagDef)
    (hz : ∀ f ∈ flagDef, f.ShortName ≠ "z") :
    (∃ err, Parse L flagDef ["-z"] false = .error err ∧ err.Code = INVALID_USAGE) ∧
    ((∀ f ∈ flagDef, f.Required = false) →
      ∃ res, Parse L flagDef ["-z"] true = .ok res ∧ res.NonFlagArgs = ["-z"]) := by
  constructor
  · rcases parseLoop_dash_z L flagDef hz 0
        { FlagValuesForID := [], FlagsNameToID := [], NonFlagArgs := [] } with ⟨h1, -⟩ | ⟨⟨r, h1⟩, -⟩
    · exact ⟨_, Parse_error_of_parseLoop L flagDef _ false _ h1, rfl⟩
    · refine ⟨NewError INVALID_USAGE, ?_, rfl⟩
      unfold Parse
      simp only [h1]
      have hu : ["-z"].any unrecognized = true := by decide
      simp [hu]
  · intro hopt
    rcases parseLoop_dash_z L flagDef hz 0
        { FlagValuesForID := [], FlagsNameToID := [], NonFlagArgs := [] } with ⟨-, f, hf, hfr⟩ | ⟨⟨r, h1⟩, -⟩
    · rw [hopt f hf] at hfr
      cases hfr
    · refine ⟨{ r with NonFlagArgs := ["-z"] }, ?_, rfl⟩
      unfold Parse
      simp only [h1]
      rfl

/-- C3, as stated: with the number flag `-n` declared before the required flag
`-r`, the input `["-n"]` names `-r` nowhere, yet the parse fails with
`INVAID_VALUE` (no value for `-n`), not `INVALID_USAGE`. -/
theorem Parse_required_missing_not_always_usage :
    ¬ ∀ (L : StdLib) (flagDef : List FlagDef) (f : FlagDef) (cmdArgs : List String)
        (allowUnrecognizedFlags : Bool),
        f ∈ flagDef → f.Required = true →
        (∀ tok ∈ cmdArgs,
          tok ≠ "-" ++ f.ShortName ∧ tok ≠ "--" ++ f.LongName ∧
          strings.HasPrefix tok ("-" ++ f.ShortName ++ "=") = false ∧
          strings.HasPrefix tok ("--" ++ f.LongName ++ "=") = false) →
        ∃ err, Parse L flagDef cmdArgs allowUnrecognizedFlags = .error err ∧
          err.Code = INVALID_USAGE := by
  intro h
  obtain ⟨err, h1, h2⟩ := h exampleLib [flagN, flagR] flagR ["-n"] false
    (by simp) rfl (by decide)
  have h3 : Parse exampleLib [flagN, flagR] ["-n"] false = .error (NewError INVAID_VALUE) := by
    decide
  rw [h3] at h1
  cases h1
  exact absurd h2 (by decide)

/-- The amended C3 at work: `-r` is required and declared after `-n`; the
input `["x"]` names neither, the pass of `-n` succeeds, and the parse fails
with `INVALID_USAGE`. -/
theorem Parse_required_missing_witness :
    flagR.Required = true ∧
    (∀ tok ∈ ["x"],
      tok ≠ "-" ++ flagR.ShortName ∧ tok ≠ "--" ++ flagR.LongName ∧
      strings.HasPrefix tok ("-" ++ flagR.ShortName ++ "=") = false ∧
      strings.HasPrefix tok ("--" ++ flagR.LongName ++ "=") = false) ∧
    Parse exampleLib ([flagN] ++ flagR :: []) ["x"] false = .error (NewError INVALID_USAGE) :=
  ⟨rfl, by decide,
    (Parse_required_missing exampleLib [flagN] [] flagR ["x"] false rfl (by decide)).2.1
      ⟨_, rfl⟩⟩

/-- The policy of C6 on the flags `-s`, `--short` and `-t`, `--type`. -/
theorem Parse_dash_z_policy_witness :
    (∀ f ∈ [flagShort, flagT], f.ShortName ≠ "z") ∧
    ∃ err, Parse exampleLib [flagShort, flagT] ["-z"] false = .error err ∧
      err.Code = INVALID_USAGE :=
  ⟨by decide, (Parse_dash_z_policy exampleLib [flagShort, flagT] (by decide)).1⟩

/-- C10 at work: the boolean `-v` is taken out, `a` and `b` stay in order. -/
theorem Parse_nonFlagArgs_sublist_witness :
    Parse exampleLib [flagV] ["a", "-v", "b"] false =
      .ok { FlagValuesForID := [(0, ["true"])], FlagsNameToID := [("v", 0)],
            NonFlagArgs := ["a", "b"] } ∧
    ["a", "b"].Sublist ["a", "-v", "b"] :=
  ⟨by decide,
    Parse_nonFlagArgs_sublist exampleLib [flagV] ["a", "-v", "b"] false
      { FlagValuesForID := [(0, ["true"])], FlagsNameToID := [("v", 0)],
        NonFlagArgs := ["a", "b"] } (by decide)⟩

/-! ## Go maps -/

/-- Removing the key `k` does not change what is read at another key. -/
theorem GoMap.get?_filter_ne {κ ν : Type} [DecidableEq κ] (m : GoMap κ ν) (k k' : κ)
    (h : k ≠ k') : GoMap.get? (m.filter (fun p => p.1 ≠ k)) k' = GoMap.get? m k' := by
  induction m with
  | nil => rfl
  | cons p m ih =>
    obtain ⟨a, b⟩ := p
    by_cases ha : a = k
    · subst ha
      simp only [List.filter, ne_eq, not_true_eq_false, decide_False, GoMap.get?, h, if_false]
      exact ih
    · simp only [List.filter, ha, ne_eq, not_false_eq_true, decide_True, GoMap.get?]
      split_ifs
      · rfl
      · exact ih

/-- Reading a map after `m[k] = v`. -/
theorem GoMap.get?_set {κ ν : Type} [DecidableEq κ] (m : GoMap κ ν) (k k' : κ) (v : ν) :
    GoMap.get? (GoMap.set m k v) k' = if k = k' then some v else GoMap.get? m k' := by
  unfold GoMap.set
  simp only [GoMap.get?]
  split_ifs with h
  · rfl
  · exact GoMap.get?_filter_ne m k k' h

/-! ## Equals form and bare form -/

/-- The outcome of `Parse` over a single flag, in terms of that flag's matching pass. -/
theorem Parse_singleton (L : StdLib) (f : FlagDef) (cmdArgs : List String) (allow : Bool) :
    Parse L [f] cmdArgs allow =
      match flagValue L f cmdArgs with
      | .error err => .error err
      | .ok (vals, rem) =>
        if ¬ allow ∧ rem.any unrecognized then .error (NewError INVALID_USAGE)
        else .ok { register { FlagValuesForID := [], FlagsNameToID := [], NonFlagArgs := [] }
                     f 0 vals with NonFlagArgs := rem } := by
  unfold Parse
  simp only [parseLoop]
  cases flagValue L f cmdArgs with
  | error e => rfl
  | ok p => rfl

/-- A string flag without pattern or whitelist accepts every value. -/
theorem Validate_plain_string (L : StdLib) (f : FlagDef) (v : String)
    (ht : f.Type = STRING_FLAG) (hp : f.strRegex = none) (ha : f.allowedVals = []) :
    f.Validate L v = none := by
  have ht' : f.flagType = STRING_FLAG := ht
  have h1 : ¬ (STRING_FLAG = BOOL_FLAG) := by decide
  have h2 : ¬ (STRING_FLAG = NUMBER_FLAG) := by decide
  simp [FlagDef.Validate, ht', hp, ha, h1, h2]

/-- The bare form `--name v` of a plain string flag stores `[v]`. -/
theorem flagValue_bare_form (L : StdLib) (f : FlagDef) (v : String)
    (hl : f.LongName = "name") (ht : f.Type = STRING_FLAG)
    (hp : f.strRegex = none) (ha : f.allowedVals = [])
    (hv : strings.HasPrefix v "-" = false) :
    flagValue L f ["--name", v] = .ok ([v], []) := by
  have h1 : isHead f "--name" = true := by simp [isHead, hl]
  have h2 : ¬ f.Type = BOOL_FLAG := by rw [ht]; decide
  unfold flagValue
  rw [loop_value_ok L f _ _ _ h1 h2 (by simp [hv]) (Validate_plain_string L f v ht hp ha),
    loop_nil]
  simp

/-- The equals form `--name=v` of a plain string flag stores `[v]`. -/
theorem flagValue_equals_form (L : StdLib) (f : FlagDef) (v : String)
    (hl : f.LongName = "name") (ht : f.Type = STRING_FLAG)
    (hp : f.strRegex = none) (ha : f.allowedVals = [])
    (hs : strings.HasPrefix f.ShortName "-" = false) :
    flagValue L f ["--name=" ++ v] = .ok ([v], []) := by
  have h1 : ¬ isHead f ("--name=" ++ v) = true := by
    simp only [isHead, decide_eq_true_eq, String.ext_iff, String.data_append, hl, not_or]
    constructor
    · intro hh
      have : strings.HasPrefix f.ShortName "-" = true := by
        simp only [strings.HasPrefix]
        have hd : f.ShortName.data = '-' :: 'n' :: 'a' :: 'm' :: 'e' :: '=' :: v.data := by
          simpa using hh.symm
        rw [hd]
        simp
      rw [hs] at this
      cases this
    · intro hh
      have := congrArg List.length hh
      simp at this
  have h2 : isEqualsForm f ("--name=" ++ v) = true := by
    simp [isEqualsForm, strings.HasPrefix, hl, String.data_append]
  have h3 : strings.sliceFrom ("--name=" ++ v) (strings.Index ("--name=" ++ v) "=" + 1) = v := by
    apply String.ext
    simp [strings.sliceFrom, strings.Index, strings.indexFrom, String.data_append]
  unfold flagValue
  rw [loop_equals_ok L f _ _ _ h1 h2 (by rw [h3]; exact Validate_plain_string L f v ht hp ha),
    loop_nil, h3]
  simp

/-- C4, as stated: for the required string flag `--name` and the value `-x` the
equals form succeeds and stores `["-x"]`, while the bare form fails with
`INVAID_VALUE`, because a token that starts with a dash is never taken as the
value that follows a flag. -/
theorem Parse_equals_form_differs_on_dash_value :
    Parse exampleLib [flagName] ["--name=" ++ "-x"] false =
      .ok { FlagValuesForID := [(0, ["-x"])], FlagsNameToID := [("name", 0)],
            NonFlagArgs := [] } ∧
    Parse exampleLib [flagName] ["--name", "-x"] false = .error (NewError INVAID_VALUE) ∧
    Parse exampleLib [flagName] ["--name=" ++ "-x"] false ≠
      Parse exampleLib [flagName] ["--name", "-x"] false := by
  refine ⟨by decide, by decide, by decide⟩

/-- C4, amended. For a single required string flag with long name `name`, no
pattern and no whitelist, whose short name does not start with a dash, and for
every value `v` that does not start with a dash, `parse.Parse` on
`["--name=" ++ v]` and on `["--name", v]` have the same outcome: both succeed,
and `Get("name")` returns `[v]`. -/
theorem Parse_equals_form_bare_form (L : StdLib) (f : FlagDef) (v : String)
    (allowUnrecognizedFlags : Bool)
    (hl : f.LongName = "name") (ht : f.Type = STRING_FLAG) (_hreq : f.Required = true)
    (hp : f.strRegex = none) (ha : f.allowedVals = [])
    (hs : strings.HasPrefix f.ShortName "-" = false)
    (hv : strings.HasPrefix v "-" = false) :
    Parse L [f] ["--name=" ++ v] allowUnrecognizedFlags =
      Parse L [f] ["--name", v] allowUnrecognizedFlags ∧
    ∃ res, Parse L [f] ["--name", v] allowUnrecognizedFlags = .ok res ∧
      Get "name" (some res) = .ok [v] := by
  have hb := flagValue_bare_form L f v hl ht hp ha hv
  have he := flagValue_equals_form L f v hl ht hp ha hs
  refine ⟨by rw [Parse_singleton, Parse_singleton, hb, he], ?_⟩
  rw [Parse_singleton, hb]
  simp only [List.any_nil, Bool.false_eq_true, and_false, if_false]
  refine ⟨_, rfl, ?_⟩
  have hln : f.LongName ≠ "" := by rw [hl]; decide
  simp only [Get, register, List.length_singleton, gt_iff_lt, Nat.lt_one_iff, Nat.pos_of_ne_zero,
    zero_lt_one, if_true, hln, ne_eq, not_false_eq_true, hl]
  have hne : ¬ ("name" = "") := by decide
  simp only [hne, not_false_eq_true, if_true]
  rw [GoMap.get?_set]
  simp only [if_true]
  rw [GoMap.get?_set]
  simp

/-- The amended C4 on the flag `--name` and the value `x`. -/
theorem Parse_equals_form_bare_form_witness :
    (flagName.LongName = "name" ∧ flagName.Type = STRING_FLAG ∧ flagName.Required = true ∧
      flagName.strRegex = none ∧ flagName.allowedVals = [] ∧
      strings.HasPrefix flagName.ShortName "-" = false ∧ strings.HasPrefix "x" "-" = false) ∧
    Parse exampleLib [flagName] ["--name=" ++ "x"] false =
      Parse exampleLib [flagName] ["--name", "x"] false :=
  ⟨⟨rfl, rfl, rfl, rfl, rfl, rfl, rfl⟩,
    (Parse_equals_form_bare_form exampleLib flagName "x" false rfl rfl rfl rfl rfl rfl rfl).1⟩

/-! ## Boolean lookahead -/

/-- A boolean flag without whitelist accepts exactly `true` and `false`. -/
theorem Validate_boolean (L : StdLib) (f : FlagDef) (t : String)
    (ht : f.flagType = BOOL_FLAG) (ha : f.allowedVals = []) :
    f.Validate L t = none ↔ (t = "true" ∨ t = "false") := by
  simp only [FlagDef.Validate, ht, if_true, ha, List.length_nil, gt_iff_lt, lt_self_iff_false,
    false_and, if_false]
  by_cases h1 : t = "true"
  · subst h1; simp
  · by_cases h2 : t = "false"
    · subst h2; simp
    · simp [h1, h2]

/-- C8. Boolean lookahead: for a boolean flag with short name `v` that
`flagdef.New` built and every token `t`, matching `["-v", t]` stores `[t]` and
leaves nothing when `t` is `true` or `false`; for every other `t` that does not
itself name the flag it stores the implicit `["true"]` and leaves `[t]`. On the
input `["-v", "extra"]` the flag `-v` gets `["true"]` and `NonFlagArgs` is
`["extra"]`. -/
theorem flagValue_boolean_lookahead (L : StdLib) (shortName longName : String)
    (opts : List FlagOption) (f : FlagDef) (t : String)
    (hnew : New L shortName longName BOOL_FLAG opts = .ok f) (hv : f.ShortName = "v") :
    ((t = "true" ∨ t = "false") → flagValue L f ["-v", t] = .ok ([t], [])) ∧
    (t ≠ "true" → t ≠ "false" →
      t ≠ "-v" → t ≠ "--" ++ f.LongName →
      strings.HasPrefix t "-v=" = false →
      strings.HasPrefix t ("--" ++ f.LongName ++ "=") = false →
      flagValue L f ["-v", t] = .ok (["true"], [t])) ∧
    (∃ res, Parse L [flagV] ["-v", "extra"] false = .ok res ∧
      Get "v" (some res) = .ok ["true"] ∧ res.NonFlagArgs = ["extra"]) := by
  obtain ⟨-, -, hty, -, -, -, -, -, -, hal, -⟩ :=
    New_ok_fields L shortName longName BOOL_FLAG opts f hnew
  have hal' := hal hty
  have h1 : isHead f "-v" = true := by simp [isHead, hv]
  refine ⟨?_, ?_, ?_⟩
  · intro ht
    unfold flagValue
    rw [loop_bool_explicit L f _ _ _ h1 hty ((Validate_boolean L f t hty hal').mpr ht), loop_nil]
    simp
  · intro n1 n2 n3 n4 n5 n6
    have hbad : ∃ err, f.Validate L t = some err := by
      cases hval : f.Validate L t with
      | none =>
        rcases (Validate_boolean L f t hty hal').mp hval with h | h
        · exact absurd h n1
        · exact absurd h n2
      | some err => exact ⟨err, rfl⟩
    obtain ⟨err, herr⟩ := hbad
    have h2 : ¬ isHead f t = true := by simp [isHead, hv, n3, n4]
    have h3 : ¬ isEqualsForm f t = true := by
      simp [isEqualsForm, hv, n5, n6]
    unfold flagValue
    rw [loop_bool_implicit L f _ _ _ h1 hty herr, loop_other L f _ _ _ h2 h3, loop_nil]
    simp
  · exact ⟨_, rfl, rfl, rfl⟩

/-- C8 on the flag `-v` and the token `extra`. -/
theorem flagValue_boolean_lookahead_witness :
    (New exampleLib "v" "" BOOL_FLAG [] = .ok flagV ∧ flagV.ShortName = "v") ∧
    flagValue exampleLib flagV ["-v", "extra"] = .ok (["true"], ["extra"]) :=
  ⟨⟨rfl, rfl⟩,
    (flagValue_boolean_lookahead exampleLib "v" "" [] flagV "extra" rfl rfl).2.1
      (by decide) (by decide) (by decide) (by decide) (by decide) (by decide)⟩

/-! ## Result assembly -/

/-- Reading the value map after one flag was registered. -/
theorem register_values_get? (result : Result) (flag : FlagDef) (id : Nat)
    (flagVals : List String) (k : Int) :
    (register result flag id flagVals).FlagValuesForID.get? k =
      if flagVals ≠ [] ∧ (id : Int) = k then some flagVals
      else result.FlagValuesForID.get? k := by
  unfold register
  cases flagVals with
  | nil => simp
  | cons v vs =>
    simp only [List.length_cons, gt_iff_lt, Nat.zero_lt_succ, if_true, ne_eq, reduceCtorEq,
      not_false_eq_true, true_and]
    rw [GoMap.get?_set]

/-- A name found after one flag was registered either was there before or
belongs to that flag, which then has values. -/
theorem register_names_get? (result : Result) (flag : FlagDef) (id : Nat)
    (flagVals : List String) (name : String) (k : Int)
    (h : (register result flag id flagVals).FlagsNameToID.get? name = some k) :
    (k = (id : Int) ∧ flagVals ≠ []) ∨ result.FlagsNameToID.get? name = some k := by
  unfold register at h
  cases flagVals with
  | nil => right; simpa using h
  | cons v vs =>
    simp only [List.length_cons, gt_iff_lt, Nat.zero_lt_succ, if_true] at h
    split_ifs at h with h1 h2 h2
    · rw [GoMap.get?_set] at h
      split_ifs at h
      · left; exact ⟨by cases h; rfl, by simp⟩
      · rw [GoMap.get?_set] at h
        split_ifs at h
        · left; exact ⟨by cases h; rfl, by simp⟩
        · right; exact h
    · rw [GoMap.get?_set] at h
      split_ifs at h
      · left; exact ⟨by cases h; rfl, by simp⟩
      · right; exact h
    · rw [GoMap.get?_set] at h
      split_ifs at h
      · left; exact ⟨by cases h; rfl, by simp⟩
      · right; exact h
    · right; exact h

/-- The flag loop started at index `id` over `n` flags writes only ids from
`id` up to `id + n`, in either map. -/
theorem parseLoop_frame (L : StdLib) (flags : List FlagDef) :
    ∀ (id : Nat) (result result' : Result) (remaining remaining' : List String),
    parseLoop L flags id result remaining = .ok (result', remaining') →
    ∀ k : Int, (k < id ∨ (id : Int) + flags.length ≤ k) →
      result'.FlagValuesForID.get? k = result.FlagValuesForID.get? k ∧
      ∀ name, result'.FlagsNameToID.get? name = some k →
        result.FlagsNameToID.get? name = some k := by
  induction flags with
  | nil =>
    intro id result result' remaining remaining' h k _
    simp only [parseLoop] at h
    cases h
    exact ⟨rfl, fun _ hn => hn⟩
  | cons f fs ih =>
    intro id result result' remaining remaining' h k hk
    simp only [parseLoop] at h
    cases hv : flagValue L f remaining with
    | error e => simp [hv] at h
    | ok p =>
      obtain ⟨vals, rem⟩ := p
      simp only [hv] at h
      have hk' : k < ((id + 1 : Nat) : Int) ∨ ((id + 1 : Nat) : Int) + fs.length ≤ k := by
        simp only [List.length_cons] at hk
        push_cast at hk ⊢
        omega
      have hne : ¬ ((id : Int) = k) := by
        simp only [List.length_cons] at hk
        push_cast at hk
        omega
      obtain ⟨e1, e2⟩ := ih (id + 1) _ result' rem remaining' h k hk'
      constructor
      · rw [e1, register_values_get?]
        simp [hne]
      · intro name hn
        rcases register_names_get? result f id vals name k (e2 name hn) with ⟨hh, -⟩ | hh
        · exact absurd hh.symm hne
        · exact hh

/-- Registering a flag keeps the map invariant. -/
theorem register_inv (result : Result) (flag : FlagDef) (id : Nat) (flagVals : List String)
    (h : ResultInv result) : ResultInv (register result flag id flagVals) := by
  obtain ⟨h1, h2⟩ := h
  constructor
  · intro name k hn
    rw [register_values_get?]
    rcases register_names_get? result flag id flagVals name k hn with ⟨hk, hne⟩ | hh
    · exact ⟨flagVals, by simp [hne, hk], hne⟩
    · obtain ⟨vals, hv, hvne⟩ := h1 name k hh
      split_ifs with hc
      · exact ⟨flagVals, rfl, hc.1⟩
      · exact ⟨vals, hv, hvne⟩
  · intro k vals hv
    rw [register_values_get?] at hv
    split_ifs at hv with hc
    · cases hv; exact hc.1
    · exact h2 k vals hv

/-- The flag loop keeps the map invariant. -/
theorem parseLoop_inv (L : StdLib) (flags : List FlagDef) :
    ∀ (id : Nat) (result result' : Result) (remaining remaining' : List String),
    parseLoop L flags id result remaining = .ok (result', remaining') →
    ResultInv result → ResultInv result' := by
  induction flags with
  | nil =>
    intro id result result' remaining remaining' h hi
    simp only [parseLoop] at h
    cases h
    exact hi
  | cons f fs ih =>
    intro id result result' remaining remaining' h hi
    simp only [parseLoop] at h
    cases hv : flagValue L f remaining with
    | error e => simp [hv] at h
    | ok p =>
      obtain ⟨vals, rem⟩ := p
      simp only [hv] at h
      exact ih (id + 1) _ result' rem remaining' h (register_inv result f id vals hi)

/-- A successful `Parse`, seen from the flag at index `pre.length`: the flags
before it leave `rem1`, its own pass on `rem1` yields `vals`, and the value map
of the result holds `vals` at that index, or nothing when `vals` is empty. -/
theorem Parse_decompose (L : StdLib) (pre post : List FlagDef) (f : FlagDef)
    (cmdArgs : List String) (allow : Bool) (res : Result)
    (h : Parse L (pre ++ f :: post) cmdArgs allow = .ok res) :
    ∃ r1 vals rem2, Parse L pre cmdArgs true = .ok r1 ∧
      flagValue L f r1.NonFlagArgs = .ok (vals, rem2) ∧
      res.FlagValuesForID.get? (pre.length : Int) = (if vals ≠ [] then some vals else none) ∧
      ResultInv res := by
  obtain ⟨result, remaining, hl, -, rfl⟩ := (Parse_ok_iff L _ cmdArgs allow res).mp h
  rw [parseLoop_append] at hl
  cases h1 : parseLoop L pre 0 { FlagValuesForID := [], FlagsNameToID := [], NonFlagArgs := [] }
      cmdArgs with
  | error e => simp [h1] at hl
  | ok p =>
    obtain ⟨r1, rem1⟩ := p
    simp only [h1, parseLoop] at hl
    cases hv : flagValue L f rem1 with
    | error e => simp [hv] at hl
    | ok q =>
      obtain ⟨vals, rem2⟩ := q
      simp only [hv] at hl
      have hpre : Parse L pre cmdArgs true = .ok { r1 with NonFlagArgs := rem1 } :=
        (Parse_ok_iff L pre cmdArgs true _).mpr ⟨r1, rem1, h1, Or.inl rfl, rfl⟩
      have hinv0 : ResultInv { FlagValuesForID := [], FlagsNameToID := [], NonFlagArgs := [] } :=
        ⟨fun _ _ hh => by simp [GoMap.get?] at hh, fun _ _ hh => by simp [GoMap.get?] at hh⟩
      have hinv1 := parseLoop_inv L pre _ _ _ _ _ h1 hinv0
      have hinv := parseLoop_inv L post _ _ _ _ _ hl (register_inv r1 f _ vals hinv1)
      refine ⟨_, vals, rem2, hpre, hv, ?_, hinv⟩
      have e1 := (parseLoop_frame L post _ _ _ _ _ hl (pre.length : Int)
        (Or.inl (by push_cast; omega))).1
      have e2 := (parseLoop_frame L pre _ _ _ _ _ h1 (pre.length : Int)
        (Or.inr (by push_cast; omega))).1
      simp only [Nat.zero_add] at e1
      simp only
      rw [e1, register_values_get?, e2]
      simp [GoMap.get?]

/-- C7. Defaults are used exactly when nothing matched. In a successful
`parse.Parse`, take the flag at index `pre.length` and the tokens its pass
scans (what the flags before it left over): when the scan matched nothing the
flag is not required, and it is stored with exactly its default values when it
has some and is absent from the value map when it has none; when the scan
matched something the flag is stored with exactly the matched values. Example:
`-s`, `--short` (string, allowed foo, bar) and `-t`, `--type` (number, default
123) on `["--short", "foo"]` give short = `["foo"]`, type = `["123"]` and no
leftovers. -/
theorem Parse_defaults_iff_unmatched (L : StdLib) (pre post : List FlagDef) (f : FlagDef)
    (cmdArgs : List String) (allowUnrecognizedFlags : Bool) (res : Result)
    (h : Parse L (pre ++ f :: post) cmdArgs allowUnrecognizedFlags = .ok res) :
    (∃ r0 matched rest, Parse L pre cmdArgs true = .ok r0 ∧
      flagValueLoop L f r0.NonFlagArgs [] [] = .ok (matched, rest) ∧
      (matched = [] → f.Required = false ∧
        (f.DefaultValues ≠ [] →
          res.FlagValuesForID.get? (pre.length : Int) = some f.DefaultValues) ∧
        (f.DefaultValues = [] → res.FlagValuesForID.get? (pre.length : Int) = none)) ∧
      (matched ≠ [] → res.FlagValuesForID.get? (pre.length : Int) = some matched)) ∧
    (∃ r, Parse L [flagShort, flagT] ["--short", "foo"] false = .ok r ∧
      Get "short" (some r) = .ok ["foo"] ∧ Get "type" (some r) = .ok ["123"] ∧
      r.NonFlagArgs = []) := by
  refine ⟨?_, ⟨_, rfl, rfl, rfl, rfl⟩⟩
  obtain ⟨r1, vals, rem2, hpre, hv, hget, -⟩ :=
    Parse_decompose L pre post f cmdArgs allowUnrecognizedFlags res h
  obtain ⟨vs, hl, hcase⟩ := (flagValue_ok_iff L f _ vals rem2).mp hv
  refine ⟨r1, vs, rem2, hpre, hl, ?_, ?_⟩
  · intro hvs
    rcases hcase with ⟨hne, -⟩ | ⟨-, hreq, hvals⟩
    · exact absurd hvs hne
    · subst hvals
      refine ⟨hreq, ?_, ?_⟩
      · intro hd
        rw [hget]
        simp [hd]
      · intro hd
        rw [hget]
        simp [hd]
  · intro hvs
    rcases hcase with ⟨-, hvals⟩ | ⟨he, -, -⟩
    · subst hvals
      rw [hget]
      simp [hvs]
    · exact absurd he hvs

/-- C7 on the example: `--type` matched nothing and is stored with its default;
`--short` matched and is stored with the matched value. -/
theorem Parse_defaults_iff_unmatched_witness :
    Parse exampleLib ([flagShort] ++ flagT :: []) ["--short", "foo"] false =
      .ok { FlagValuesForID := [(1, ["123"]), (0, ["foo"])],
            FlagsNameToID := [("type", 1), ("t", 1), ("short", 0), ("s", 0)],
            NonFlagArgs := [] } ∧
    ∃ r0 matched rest, Parse exampleLib [flagShort] ["--short", "foo"] true = .ok r0 ∧
      flagValueLoop exampleLib flagT r0.NonFlagArgs [] [] = .ok (matched, rest) ∧
      (matched = [] → flagT.Required = false ∧
        (flagT.DefaultValues ≠ [] →
          GoMap.get? [((1 : Int), ["123"]), (0, ["foo"])] (([flagShort].length : Nat) : Int)
            = some flagT.DefaultValues) ∧
        (flagT.DefaultValues = [] →
          GoMap.get? [((1 : Int), ["123"]), (0, ["foo"])] (([flagShort].length : Nat) : Int)
            = none)) ∧
      (matched ≠ [] →
        GoMap.get? [((1 : Int), ["123"]), (0, ["foo"])] (([flagShort].length : Nat) : Int)
          = some matched) :=
  ⟨by decide,
    (Parse_defaults_iff_unmatched exampleLib [flagShort] [] flagT ["--short", "foo"] false
      { FlagValuesForID := [(1, ["123"]), (0, ["foo"])],
        FlagsNameToID := [("type", 1), ("t", 1), ("short", 0), ("s", 0)],
        NonFlagArgs := [] } (by decide)).1⟩

/-- C9. Every result of a successful `parse.Parse` satisfies: each id some name
maps to is a key of the value map with a non-empty value sequence; the value
map holds no empty sequence; a flag that matched nothing and has no default is
in neither map (its id is no key and no name maps to it). Hence `parse.Get`
never returns `NOT_FOUND` for a name the result knows. -/
theorem Parse_result_invariant (L : StdLib) (flagDef : List FlagDef) (cmdArgs : List String)
    (allowUnrecognizedFlags : Bool) (res : Result)
    (h : Parse L flagDef cmdArgs allowUnrecognizedFlags = .ok res) :
    (∀ name id, res.FlagsNameToID.get? name = some id →
      ∃ vals, res.FlagValuesForID.get? id = some vals ∧ vals ≠ []) ∧
    (∀ id vals, res.FlagValuesForID.get? id = some vals → vals ≠ []) ∧
    (∀ pre f post r0 rest, flagDef = pre ++ f :: post →
      Parse L pre cmdArgs true = .ok r0 →
      flagValueLoop L f r0.NonFlagArgs [] [] = .ok ([], rest) →
      f.DefaultValues = [] →
      res.FlagValuesForID.get? (pre.length : Int) = none ∧
      ∀ name, res.FlagsNameToID.get? name ≠ some (pre.length : Int)) ∧
    (∀ name id, res.FlagsNameToID.get? name = some id →
      ∃ vals, Get name (some res) = .ok vals) := by
  have hinv : ResultInv res := by
    obtain ⟨result, remaining, hl, -, rfl⟩ := (Parse_ok_iff L _ cmdArgs _ res).mp h
    have hinv0 : ResultInv { FlagValuesForID := [], FlagsNameToID := [], NonFlagArgs := [] } :=
      ⟨fun _ _ hh => by simp [GoMap.get?] at hh, fun _ _ hh => by simp [GoMap.get?] at hh⟩
    have hres : ResultInv result := parseLoop_inv L flagDef _ _ _ _ _ hl hinv0
    exact hres
  refine ⟨hinv.1, hinv.2, ?_, ?_⟩
  · intro pre f post r0 rest hfl hpre hloop hdef
    subst hfl
    obtain ⟨r1, vals, rem2, hpre', hv, hget, -⟩ :=
      Parse_decompose L pre post f cmdArgs allowUnrecognizedFlags res h
    rw [hpre] at hpre'
    cases hpre'
    obtain ⟨vs, hl, hcase⟩ := (flagValue_ok_iff L f _ vals rem2).mp hv
    rw [hloop] at hl
    cases hl
    have hvals : vals = [] := by
      rcases hcase with ⟨hne, -⟩ | ⟨-, -, hvals⟩
      · exact absurd rfl hne
      · rw [hvals, hdef]
    have hnone : res.FlagValuesForID.get? (pre.length : Int) = none := by
      rw [hget]; simp [hvals]
    refine ⟨hnone, ?_⟩
    intro name hn
    obtain ⟨vals', hv', -⟩ := hinv.1 name _ hn
    rw [hnone] at hv'
    cases hv'
  · intro name id hn
    obtain ⟨vals, hv, -⟩ := hinv.1 name id hn
    exact ⟨vals, by simp [Get, hn, hv]⟩

/-- C9 on the example: `-n` matched nothing and has no default, `-v` matched. -/
theorem Parse_result_invariant_witness :
    Parse exampleLib [flagN, flagV] ["-v"] false =
      .ok { FlagValuesForID := [(1, ["true"])], FlagsNameToID := [("v", 1)],
            NonFlagArgs := [] } ∧
    ∀ id vals, GoMap.get? [((1 : Int), ["true"])] id = some vals → vals ≠ [] :=
  ⟨by decide,
    (Parse_result_invariant exampleLib [flagN, flagV] ["-v"] false
      { FlagValuesForID := [(1, ["true"])], FlagsNameToID := [("v", 1)],
        NonFlagArgs := [] } (by decide)).2.1⟩

/-! ## Serialisation -/

/-- The lookup `Get` reads a result only through the two maps. -/
theorem Get_congr (name : String) (a b : Result) (h : a.Same b) :
    Get name (some a) = Get name (some b) := by
  simp only [Get, h.1, h.2.1]

/-- The outcome of `ResultFromBytes`, in terms of the codec. -/
theorem ResultFromBytes_ok_iff (J : Json) (bytes : List (Fin 256)) (r : Result) :
    ResultFromBytes J bytes = .ok r ↔ bytes ≠ [] ∧ J.Unmarshal bytes = some r := by
  unfold ResultFromBytes
  cases bytes with
  | nil => simp
  | cons b bs =>
    cases hu : J.Unmarshal (b :: bs) with
    | none => simp
    | some r' => simp

/-- A successful `Pflags.Parse` leaves the parse result in the registry,
together with exactly what the codec marshalled from it. -/
theorem Pflags_Parse_ok (L : StdLib) (J : Json) (o o' : pflags.Pflags)
    (cmdArgs : List String) (h : pflags.Pflags.Parse L J o cmdArgs = (o', none)) :
    ∃ res, Parse L o.flags cmdArgs o.allowUnrecognizedFlags = .ok res ∧
      o'.result = some res ∧ J.Marshal res = some o'.Parsed := by
  unfold pflags.Pflags.Parse at h
  simp only at h
  cases hres : Parse L o.flags cmdArgs o.allowUnrecognizedFlags with
  | error e => simp [hres] at h
  | ok res =>
    simp only [hres] at h
    cases hm : J.Marshal res with
    | none => simp [hm] at h
    | some bytes =>
      simp only [hm, Prod.mk.injEq, and_true] at h
      subst h
      exact ⟨res, rfl, rfl, hm⟩

/-- C5, as stated: the token `tokenFF` is one byte that is not valid UTF-8.
The registry holding `-v` parses `[tokenFF]` and keeps it as the only leftover;
the serialised result decodes to a result whose leftover is the replacement
character, so `ResultFromBytes` of the serialisation differs from the result
and `NonFlagArgsFromBytes(Parsed())` differs from `NonFlagArgs()`. -/
theorem serialisation_loses_invalid_utf8 :
    pflags.Pflags.Parse exampleLib coercingJson exampleRegistry [tokenFF] =
      ({ exampleRegistry with result := some invalidTokenResult,
                              parsedBytes := invalidTokenBytes }, none) ∧
    coercingJson.Marshal invalidTokenResult = some invalidTokenBytes ∧
    ResultFromBytes coercingJson invalidTokenBytes = .ok replacedTokenResult ∧
    ¬ replacedTokenResult.Same invalidTokenResult ∧
    pflags.Pflags.NonFlagArgs
      { exampleRegistry with result := some invalidTokenResult,
                             parsedBytes := invalidTokenBytes } = [tokenFF] ∧
    pflags.NonFlagArgsFromBytes coercingJson invalidTokenBytes = .ok [tokenReplaced] ∧
    tokenReplaced ≠ tokenFF := by
  refine ⟨rfl, rfl, by decide, ?_, rfl, by decide, by decide⟩
  intro hs
  exact absurd hs.2.2 (by decide)

/-- C5, amended. Serialisation round-trips exactly as far as the JSON codec
does: for every result `r` that the codec marshals, `ResultFromBytes` of the
bytes succeeds with a result equal to `r` field for field if and only if the
bytes are non-empty and the codec unmarshals them to a result equal to `r`
field for field. A registry after a successful `Parse` holds the parse result
and, as `Parsed()`, what the codec marshalled from it; when `Parsed()` is
non-empty and the codec unmarshals it to a result equal field for field to the
one held, `GetFromParsedBytes(name, Parsed())` is the same values or the same
error as `Get(name)` for every name, and `NonFlagArgsFromBytes(Parsed())`
returns `NonFlagArgs()`. -/
theorem serialisation_round_trip (L : StdLib) (J : Json) :
    (∀ r bytes, J.Marshal r = some bytes →
      ((∃ r', ResultFromBytes J bytes = .ok r' ∧ r'.Same r) ↔
        (bytes ≠ [] ∧ ∃ r', J.Unmarshal bytes = some r' ∧ r'.Same r))) ∧
    (∀ (o o' : pflags.Pflags) (cmdArgs : List String),
      pflags.Pflags.Parse L J o cmdArgs = (o', none) →
      ∃ res, o'.result = some res ∧ J.Marshal res = some o'.Parsed ∧
        ∀ r', o'.Parsed ≠ [] → J.Unmarshal o'.Parsed = some r' → r'.Same res →
          (∀ name, pflags.GetFromParsedBytes J name o'.Parsed = o'.Get name) ∧
          pflags.NonFlagArgsFromBytes J o'.Parsed = .ok o'.NonFlagArgs) := by
  constructor
  · intro r bytes _
    constructor
    · rintro ⟨r', hr, hs⟩
      obtain ⟨hne, hu⟩ := (ResultFromBytes_ok_iff J bytes r').mp hr
      exact ⟨hne, r', hu, hs⟩
    · rintro ⟨hne, r', hu, hs⟩
      exact ⟨r', (ResultFromBytes_ok_iff J bytes r').mpr ⟨hne, hu⟩, hs⟩
  · intro o o' cmdArgs hp
    obtain ⟨res, -, hres, hm⟩ := Pflags_Parse_ok L J o o' cmdArgs hp
    refine ⟨res, hres, hm, ?_⟩
    intro r' hne hu hs
    have hr : ResultFromBytes J o'.Parsed = .ok r' :=
      (ResultFromBytes_ok_iff J _ r').mpr ⟨hne, hu⟩
    constructor
    · intro name
      simp only [pflags.GetFromParsedBytes, hr, pflags.Pflags.Get, hres]
      exact Get_congr name r' res hs
    · simp only [pflags.NonFlagArgsFromBytes, hr, pflags.Pflags.NonFlagArgs, hres, NonFlagArgs,
        hs.2.2]

/-- The amended C5 on the registry holding `-v`, after parsing
`["-v", "extra"]`: the serialised result is decoded to the result held, and the
lookups through the bytes agree with the lookups in the registry. -/
theorem serialisation_round_trip_witness :
    pflags.Pflags.Parse exampleLib exampleJson exampleRegistry ["-v", "extra"] =
      ({ exampleRegistry with result := some exampleResult, parsedBytes := exampleBytes },
        none) ∧
    (exampleBytes ≠ [] ∧ exampleJson.Unmarshal exampleBytes = some exampleResult ∧
      exampleResult.Same exampleResult) ∧
    pflags.GetFromParsedBytes exampleJson "v" exampleBytes = .ok ["true"] ∧
    pflags.NonFlagArgsFromBytes exampleJson exampleBytes = .ok ["extra"] := by
  have hP : pflags.Pflags.Parse exampleLib exampleJson exampleRegistry ["-v", "extra"] =
      ({ exampleRegistry with result := some exampleResult, parsedBytes := exampleBytes },
        none) := rfl
  have hne : exampleBytes ≠ [] := by decide
  have hu : exampleJson.Unmarshal exampleBytes = some exampleResult := by decide
  have hs : exampleResult.Same exampleResult := ⟨fun _ => rfl, fun _ => rfl, rfl⟩
  obtain ⟨res, hres, -, hall⟩ :=
    (serialisation_round_trip exampleLib exampleJson).2 exampleRegistry _ ["-v", "extra"] hP
  cases hres
  obtain ⟨hget, hnon⟩ := hall exampleResult hne hu hs
  exact ⟨hP, ⟨hne, hu, hs⟩, hget "v", hnon⟩

/-! ## Validation -/

/-- The errors of `Validate` on a number or string flag are `INVAID_VALUE`. -/
theorem Validate_error_code (L : StdLib) (f : FlagDef) (v : String) (err : Error)
    (ht : f.Type = NUMBER_FLAG ∨ f.Type = STRING_FLAG)
    (h : f.Validate L v = some err) : err.Code = INVAID_VALUE := by
  have hnb : ¬ (NUMBER_FLAG = BOOL_FLAG) := by decide
  have hsb : ¬ (STRING_FLAG = BOOL_FLAG) := by decide
  have hsn : ¬ (STRING_FLAG = NUMBER_FLAG) := by decide
  rcases ht with ht | ht
  · have ht' : f.flagType = NUMBER_FLAG := ht
    simp only [FlagDef.Validate, ht', hnb, if_false, if_true] at h
    split at h
    · rename_i e he
      cases h
      split_ifs at he
      cases he
      rfl
    · split_ifs at h
      cases h
      rfl
  · have ht' : f.flagType = STRING_FLAG := ht
    simp only [FlagDef.Validate, ht', hsb, hsn, if_false, if_true] at h
    split at h
    · rename_i e he
      cases h
      split at he
      · split_ifs at he
        cases he
        rfl
      · cases he
    · split_ifs at h
      cases h
      rfl

/-- C11, as stated: the flag `-p` carries the pattern `a`, whose only whole
match is the text `a`; yet `Validate` accepts `ba`, because `Match` searches
the value for the pattern. -/
theorem Validate_pattern_not_full_match :
    New regexLib "p" "" STRING_FLAG [.StringRegex "a"] = .ok flagP ∧
    ¬ ∀ v, flagP.Validate regexLib v = none ↔ v = "a" := by
  refine ⟨rfl, ?_⟩
  intro h
  have h1 : flagP.Validate regexLib "ba" = none := by decide
  exact absurd ((h "ba").mp h1) (by decide)

/-- C11, amended. For a string flag on which a pattern is set, `Validate(v)`
succeeds if and only if `Match` reports that the pattern matches in `v` (a
search, not anchored to the whole of `v`) and `v` is in the whitelist when one
is set; it fails with `INVAID_VALUE` otherwise. -/
theorem Validate_pattern_search (L : StdLib) (f : FlagDef) (re : Regexp) (v : String)
    (ht : f.Type = STRING_FLAG) (hre : f.strRegex = some re) :
    (f.Validate L v = none ↔
      (re.Match v = true ∧ (f.allowedVals = [] ∨ v ∈ f.allowedVals))) ∧
    (∀ err, f.Validate L v = some err → err.Code = INVAID_VALUE) := by
  refine ⟨?_, fun err h => Validate_error_code L f v err (Or.inr ht) h⟩
  have ht' : f.flagType = STRING_FLAG := ht
  have hsb : ¬ (STRING_FLAG = BOOL_FLAG) := by decide
  have hsn : ¬ (STRING_FLAG = NUMBER_FLAG) := by decide
  simp only [FlagDef.Validate, ht', hsb, hsn, if_false, if_true, hre]
  cases hm : re.Match v with
  | false => simp
  | true =>
    cases ha : f.allowedVals with
    | nil => simp
    | cons a as =>
      simp
      by_cases hva : v = a <;> simp [hva]

/-- The amended C11 on the flag `-p` and the value `ba`. -/
theorem Validate_pattern_search_witness :
    (flagP.Type = STRING_FLAG ∧ flagP.strRegex = some (literalRegexp "a")) ∧
    (flagP.Validate regexLib "ba" = none ↔
      ((literalRegexp "a").Match "ba" = true ∧
        (flagP.allowedVals = [] ∨ "ba" ∈ flagP.allowedVals))) :=
  ⟨⟨rfl, rfl⟩, (Validate_pattern_search regexLib flagP (literalRegexp "a") "ba" rfl rfl).1⟩

/-- The outcome of `Validate` in two steps: the rule of the type, which is
`Validate` of the flag without its whitelist, then the whitelist. -/
theorem Validate_eq_type_rule_then_whitelist (L : StdLib) (f : FlagDef) (v : String) :
    f.Validate L v =
      match ({ f with allowedVals := [] } : FlagDef).Validate L v with
      | some err => some err
      | none =>
        if f.allowedVals.length > 0 ∧ ¬ f.allowedVals.contains v then
          some (NewError INVAID_VALUE)
        else none := by
  simp only [FlagDef.Validate, List.length_nil, gt_iff_lt, lt_self_iff_false, false_and,
    if_false]
  split <;> simp_all

/-- C12. For every flag with a non-empty whitelist, `Validate(v)` succeeds only
if `v` is a member, and a value that passes the rule of the type but is not a
member fails with `INVAID_VALUE`. With the flag `-s`, `--short` (string,
allowed foo, bar), parsing `["--short", "baz"]` fails with `INVAID_VALUE`. -/
theorem Validate_whitelist (L : StdLib) (f : FlagDef) (v : String)
    (ha : f.allowedVals ≠ []) :
    (f.Validate L v = none → v ∈ f.allowedVals) ∧
    (({ f with allowedVals := [] } : FlagDef).Validate L v = none → v ∉ f.allowedVals →
      ∃ err, f.Validate L v = some err ∧ err.Code = INVAID_VALUE) ∧
    (∀ allow, ∃ err, Parse L [flagShort] ["--short", "baz"] allow = .error err ∧
      err.Code = INVAID_VALUE) := by
  have hlen : f.allowedVals.length > 0 := List.length_pos.mpr ha
  refine ⟨?_, ?_, fun allow => ⟨_, rfl, rfl⟩⟩
  · intro h
    rw [Validate_eq_type_rule_then_whitelist] at h
    split at h
    · cases h
    · split_ifs at h with hc
      by_contra hv
      exact hc ⟨hlen, by simpa using hv⟩
  · intro h hv
    rw [Validate_eq_type_rule_then_whitelist, h]
    simp only
    rw [if_pos ⟨hlen, by simpa using hv⟩]
    exact ⟨_, rfl, rfl⟩

/-- C12 on the flag `-s`, `--short`: `baz` passes the rule for strings and is
not in the whitelist. -/
theorem Validate_whitelist_witness :
    flagShort.allowedVals ≠ [] ∧
    ∃ err, flagShort.Validate exampleLib "baz" = some err ∧ err.Code = INVAID_VALUE :=
  ⟨by decide, (Validate_whitelist exampleLib flagShort "baz" (by decide)).2.1 rfl (by decide)⟩

/-! ## Lookup -/

/-- C13. On a result that is present, `parse.Get(name, result)` returns
`NOT_FOUND` when `name` is no key of the name map, `NOT_FOUND` when the id the
name maps to is no key of the value map, and otherwise exactly the values
stored at that id. -/
theorem Get_spec (name : String) (result : Result) :
    (result.FlagsNameToID.get? name = none →
      ∃ err, Get name (some result) = .error err ∧ err.Code = NOT_FOUND) ∧
    (∀ id, result.FlagsNameToID.get? name = some id →
      result.FlagValuesForID.get? id = none →
      ∃ err, Get name (some result) = .error err ∧ err.Code = NOT_FOUND) ∧
    (∀ id vals, result.FlagsNameToID.get? name = some id →
      result.FlagValuesForID.get? id = some vals →
      Get name (some result) = .ok vals) := by
  refine ⟨?_, ?_, ?_⟩
  · intro h
    exact ⟨NewError NOT_FOUND, by simp [Get, h], rfl⟩
  · intro id h1 h2
    exact ⟨NewError NOT_FOUND, by simp [Get, h1, h2], rfl⟩
  · intro id vals h1 h2
    simp [Get, h1, h2]

/-- C13 on a result whose name map sends `ghost` to an id without values. -/
theorem Get_spec_witness :
    ghostResult.FlagsNameToID.get? "ghost" = some 7 ∧
    ghostResult.FlagValuesForID.get? 7 = none ∧
    ∃ err, Get "ghost" (some ghostResult) = .error err ∧ err.Code = NOT_FOUND :=
  ⟨rfl, rfl, (Get_spec "ghost" ghostResult).2.1 7 rfl rfl⟩

/-! ## The registry -/

/-- C14. Whenever `Pflags.Parse` fails the registry retains no result, whatever
it held before: afterwards `Parsed()` is empty, `NonFlagArgs()` is empty and
`Get(name)` fails for every name. The flag list is unchanged by `Parse`, failed
or not. -/
theorem Pflags_Parse_failure_clears (L : StdLib) (J : Json) (o o' : pflags.Pflags)
    (cmdArgs : List String) (outcome : Option Error)
    (h : pflags.Pflags.Parse L J o cmdArgs = (o', outcome)) :
    (∀ err, outcome = some err →
      o'.Parsed = [] ∧ o'.NonFlagArgs = [] ∧ o'.result = none ∧
      ∀ name, ∃ e, o'.Get name = .error e) ∧
    o'.flags = o.flags := by
  unfold pflags.Pflags.Parse at h
  simp only at h
  cases hres : Parse L o.flags cmdArgs o.allowUnrecognizedFlags with
  | error e =>
    simp only [hres, Prod.mk.injEq] at h
    obtain ⟨rfl, rfl⟩ := h
    exact ⟨fun _ _ => ⟨rfl, rfl, rfl, fun _ => ⟨_, rfl⟩⟩, rfl⟩
  | ok res =>
    simp only [hres] at h
    cases hm : J.Marshal res with
    | none =>
      simp only [hm, Prod.mk.injEq] at h
      obtain ⟨rfl, rfl⟩ := h
      exact ⟨fun _ _ => ⟨rfl, rfl, rfl, fun _ => ⟨_, rfl⟩⟩, rfl⟩
    | some bytes =>
      simp only [hm, Prod.mk.injEq] at h
      obtain ⟨rfl, rfl⟩ := h
      refine ⟨?_, rfl⟩
      intro err he
      cases he

/-- C14 on the registry holding `-v`: a parse that succeeds, then one that
fails on the unrecognized `-z`. -/
theorem Pflags_Parse_failure_clears_witness :
    pflags.Pflags.Parse exampleLib exampleJson
        { exampleRegistry with result := some exampleResult, parsedBytes := exampleBytes }
        ["-z"] =
      (exampleRegistry, some (NewError INVALID_USAGE)) ∧
    exampleRegistry.Parsed = [] ∧ exampleRegistry.NonFlagArgs = [] ∧
    exampleRegistry.result = none ∧ ∀ name, ∃ e, exampleRegistry.Get name = .error e :=
  ⟨rfl,
    (Pflags_Parse_failure_clears exampleLib exampleJson
      { exampleRegistry with result := some exampleResult, parsedBytes := exampleBytes }
      exampleRegistry ["-z"] (some (NewError INVALID_USAGE)) rfl).1 _ rfl⟩

/-- C15. An empty byte buffer is always rejected with kind `ERROR`, whatever
the codec: by `ResultFromBytes`, by `GetFromParsedBytes` for every name and by
`NonFlagArgsFromBytes`; none of them returns a result. -/
theorem empty_bytes_rejected (J : Json) (name : String) :
    ResultFromBytes J [] = .error (NewError ERROR) ∧
    pflags.GetFromParsedBytes J name [] = .error (NewError ERROR) ∧
    pflags.NonFlagArgsFromBytes J [] = .error (NewError ERROR) ∧
    (NewError ERROR).Code = ERROR :=
  ⟨rfl, rfl, rfl, rfl⟩

/-! ## Declaration order on an unambiguous input -/

/-- C16. For the flags A (`-a`, boolean) and B (`-b`, string) and the input
`["-a", "-b", "x"]`, `parse.Parse` succeeds with `Get("a") = ["true"]`,
`Get("b") = ["x"]` and no leftovers, whether the flags are declared as A, B or
as B, A. -/
theorem Parse_a_b_either_order (L : StdLib) (allowUnrecognizedFlags : Bool) :
    New L "a" "" BOOL_FLAG [] = .ok flagA ∧ New L "b" "" STRING_FLAG [] = .ok flagB ∧
    (∃ r, Parse L [flagA, flagB] ["-a", "-b", "x"] allowUnrecognizedFlags = .ok r ∧
      Get "a" (some r) = .ok ["true"] ∧ Get "b" (some r) = .ok ["x"] ∧
      r.NonFlagArgs = []) ∧
    (∃ r, Parse L [flagB, flagA] ["-a", "-b", "x"] allowUnrecognizedFlags = .ok r ∧
      Get "a" (some r) = .ok ["true"] ∧ Get "b" (some r) = .ok ["x"] ∧
      r.NonFlagArgs = []) := by
  cases allowUnrecognizedFlags
  · exact ⟨rfl, rfl, ⟨_, rfl, rfl, rfl, rfl⟩, ⟨_, rfl, rfl, rfl, rfl⟩⟩
  · exact ⟨rfl, rfl, ⟨_, rfl, rfl, rfl, rfl⟩, ⟨_, rfl, rfl, rfl, rfl⟩⟩

/-! ## Tokens that name an absent name -/

/-- C17, the code at the failing inputs. The flag `--name` has no short name,
yet its pass takes `-` for a head (and the next token for its value) and `-=x`
for an equals form; the flag `-r` has no long name, yet its pass takes `--` for
a head and `--=x` for an equals form. -/
theorem flagValue_matches_absent_name (L : StdLib) :
    (flagName.ShortName = "" ∧ flagR.LongName = "") ∧
    flagValue L flagName ["-", "v"] = .ok (["v"], []) ∧
    flagValue L flagName ["-=x"] = .ok (["x"], []) ∧
    flagValue L flagR ["--", "v"] = .ok (["v"], []) ∧
    flagValue L flagR ["--=x"] = .ok (["x"], []) ∧
    Parse L [flagName] ["-", "v"] false =
      .ok { FlagValuesForID := [(0, ["v"])], FlagsNameToID := [("name", 0)],
            NonFlagArgs := [] } :=
  ⟨⟨rfl, rfl⟩, rfl, rfl, rfl, rfl, rfl⟩

/-! ## The unrecognized-flag check -/

/-- Trimming dashes from a token made only of dashes leaves nothing. -/
theorem Trim_all_dashes (tok : String) (h : ∀ c ∈ tok.data, c = '-') :
    strings.Trim tok "-" = "" := by
  have hd : tok.data.dropWhile (fun c => ("-" : String).data.contains c) = [] := by
    rw [List.dropWhile_eq_nil_iff]
    intro c hc
    rw [h c hc]
    rfl
  apply String.ext
  simp only [strings.Trim, hd]
  rfl

/-- C18. Once every flag's matching pass has succeeded leaving the remainder
`R`: with the unrecognized-flag policy enabled `parse.Parse` fails, with
`INVALID_USAGE`, if and only if `R` contains a token that starts with a dash
and is non-empty after all leading and trailing dashes are stripped, and
otherwise succeeds with `NonFlagArgs = R`; with the policy disabled the check
is skipped and `NonFlagArgs = R`. A token made only of dashes never triggers
the failure. -/
theorem Parse_unrecognized_policy (L : StdLib) (flagDef : List FlagDef)
    (cmdArgs R : List String) (result : Result)
    (hl : parseLoop L flagDef 0 { FlagValuesForID := [], FlagsNameToID := [], NonFlagArgs := [] }
      cmdArgs = .ok (result, R)) :
    ((∃ err, Parse L flagDef cmdArgs false = .error err) ↔
      ∃ tok ∈ R, strings.HasPrefix tok "-" = true ∧ strings.Trim tok "-" ≠ "") ∧
    (∀ err, Parse L flagDef cmdArgs false = .error err → err.Code = INVALID_USAGE) ∧
    ((¬ ∃ tok ∈ R, strings.HasPrefix tok "-" = true ∧ strings.Trim tok "-" ≠ "") →
      Parse L flagDef cmdArgs false = .ok { result with NonFlagArgs := R }) ∧
    Parse L flagDef cmdArgs true = .ok { result with NonFlagArgs := R } ∧
    (∀ tok : String, (∀ c ∈ tok.data, c = '-') → unrecognized tok = false) := by
  have hany : R.any unrecognized = true ↔
      ∃ tok ∈ R, strings.HasPrefix tok "-" = true ∧ strings.Trim tok "-" ≠ "" := by
    simp only [List.any_eq_true, unrecognized, decide_eq_true_eq]
    constructor
    · rintro ⟨tok, ht, h1, h2⟩
      exact ⟨tok, ht, h2, h1⟩
    · rintro ⟨tok, ht, h1, h2⟩
      exact ⟨tok, ht, h2, h1⟩
  have hP : Parse L flagDef cmdArgs false =
      if R.any unrecognized = true then .error (NewError INVALID_USAGE)
      else .ok { result with NonFlagArgs := R } := by
    unfold Parse
    simp only [hl]
    by_cases hc : R.any unrecognized = true <;> simp [hc]
  refine ⟨?_, ?_, ?_, ?_, ?_⟩
  · rw [hP, ← hany]
    by_cases hc : R.any unrecognized = true <;> simp [hc]
  · intro err he
    rw [hP] at he
    split_ifs at he
    cases he
    rfl
  · intro hno
    rw [hP, if_neg (fun hc => hno (hany.mp hc))]
  · unfold Parse
    simp only [hl]
    simp
  · intro tok h
    simp [unrecognized, Trim_all_dashes tok h]

/-- C18 after the pass of `-t`, `--type` over `["--", "-", "x"]`: the dash-only
tokens stay and the parse succeeds with the policy enabled. -/
theorem Parse_unrecognized_policy_witness :
    parseLoop exampleLib [flagT] 0
        { FlagValuesForID := [], FlagsNameToID := [], NonFlagArgs := [] } ["--", "-", "x"] =
      .ok ({ FlagValuesForID := [(0, ["123"])], FlagsNameToID := [("type", 0), ("t", 0)],
             NonFlagArgs := [] }, ["--", "-", "x"]) ∧
    Parse exampleLib [flagT] ["--", "-", "x"] false =
      .ok { FlagValuesForID := [(0, ["123"])], FlagsNameToID := [("type", 0), ("t", 0)],
            NonFlagArgs := ["--", "-", "x"] } :=
  ⟨by decide,
    (Parse_unrecognized_policy exampleLib [flagT] ["--", "-", "x"] ["--", "-", "x"]
      { FlagValuesForID := [(0, ["123"])], FlagsNameToID := [("type", 0), ("t", 0)],
        NonFlagArgs := [] } (by decide)).2.2.1 (by decide)⟩

/-! ## A head without a value -/

/-- A head starts with a dash. -/
theorem isHead_starts_with_dash (f : FlagDef) (tok : String) (h : isHead f tok = true) :
    strings.HasPrefix tok "-" = true := by
  simp only [isHead, decide_eq_true_eq] at h
  rcases h with h | h <;> subst h <;> simp [strings.HasPrefix, String.data_append]

/-- The scan of a number or string flag fails with `INVAID_VALUE` when some
head is the last token or is followed by a token that starts with a dash. -/
theorem flagValueLoop_head_without_value (L : StdLib) (f : FlagDef) (tok : String)
    (rest : List String)
    (ht : f.Type = NUMBER_FLAG ∨ f.Type = STRING_FLAG)
    (hh : isHead f tok = true)
    (hr : rest = [] ∨ ∃ nxt rest', rest = nxt :: rest' ∧ strings.HasPrefix nxt "-" = true) :
    ∀ (n : Nat) (pre values remaining : List String), pre.length ≤ n →
      ∃ err, flagValueLoop L f (pre ++ tok :: rest) values remaining = .error err ∧
        err.Code = INVAID_VALUE := by
  have hnb : ¬ f.Type = BOOL_FLAG := by
    rcases ht with ht | ht <;> rw [ht] <;> decide
  have base : ∀ values remaining : List String,
      ∃ err, flagValueLoop L f (tok :: rest) values remaining = .error err ∧
        err.Code = INVAID_VALUE := by
    intro values remaining
    rcases hr with rfl | ⟨nxt, rest', rfl, hdash⟩
    · exact ⟨_, loop_value_last L f _ _ hh hnb, rfl⟩
    · exact ⟨_, loop_value_dash L f _ _ _ hh hnb (by simp [hdash]), rfl⟩
  intro n
  induction n with
  | zero =>
    intro pre values remaining hlen
    have : pre = [] := List.length_eq_zero.mp (Nat.le_zero.mp hlen)
    subst this
    exact base values remaining
  | succ n ih =>
    intro pre values remaining hlen
    cases pre with
    | nil => exact base values remaining
    | cons p pre' =>
      simp only [List.length_cons, Nat.succ_le_succ_iff] at hlen
      simp only [List.cons_append]
      by_cases hp : isHead f p = true
      · cases pre' with
        | nil =>
          exact ⟨_, loop_value_dash L f _ _ _ hp hnb
            (by simp [isHead_starts_with_dash f tok hh]), rfl⟩
        | cons q pre'' =>
          simp only [List.cons_append]
          by_cases hq : strings.HasPrefix q "-" = true
          · exact ⟨_, loop_value_dash L f _ _ _ hp hnb (by simp [hq]), rfl⟩
          · cases hv : f.Validate L q with
            | some err =>
              exact ⟨err, loop_value_invalid L f _ _ _ hp hnb hq hv,
                Validate_error_code L f q err ht hv⟩
            | none =>
              rw [loop_value_ok L f _ _ _ hp hnb hq hv]
              exact ih pre'' _ _ (by simp only [List.length_cons] at hlen; omega)
      · by_cases he : isEqualsForm f p = true
        · cases hv : f.Validate L (strings.sliceFrom p (strings.Index p "=" + 1)) with
          | some err =>
            exact ⟨err, loop_equals_invalid L f _ _ _ hp he hv,
              Validate_error_code L f _ err ht hv⟩
          | none =>
            rw [loop_equals_ok L f _ _ _ hp he hv]
            exact ih pre' _ _ hlen
        · rw [loop_other L f _ _ _ hp he]
          exact ih pre' _ _ hlen

/-- C19. For every number or string flag, a head that is the last token, or
that is followed by a token starting with a dash, makes the matcher fail with
`INVAID_VALUE`, also when the following token would otherwise be a valid value
(the number flag `-n` on `["-n", "-5"]`). When the token that follows a head
does not start with a dash it is validated: an invalid one fails the matcher,
a valid one is taken as a value together with the head and the scan goes on
after it. -/
theorem flagValue_head_without_value (L : StdLib) (f : FlagDef) (tok : String)
    (pre rest : List String)
    (ht : f.Type = NUMBER_FLAG ∨ f.Type = STRING_FLAG)
    (hh : tok = "-" ++ f.ShortName ∨ tok = "--" ++ f.LongName) :
    ((rest = [] ∨ ∃ nxt rest', rest = nxt :: rest' ∧ strings.HasPrefix nxt "-" = true) →
      ∃ err, flagValue L f (pre ++ tok :: rest) = .error err ∧ err.Code = INVAID_VALUE) ∧
    (∃ err, flagValue L flagN ["-n", "-5"] = .error err ∧ err.Code = INVAID_VALUE) ∧
    (∀ nxt rest' values remaining, strings.HasPrefix nxt "-" = false →
      flagValueLoop L f (tok :: nxt :: rest') values remaining =
        match f.Validate L nxt with
        | some err => .error err
        | none => flagValueLoop L f rest' (values ++ [nxt]) remaining) := by
  have hhead : isHead f tok = true := by simpa [isHead] using hh
  have hnb : ¬ f.Type = BOOL_FLAG := by
    rcases ht with ht | ht <;> rw [ht] <;> decide
  refine ⟨?_, ⟨_, rfl, rfl⟩, ?_⟩
  · intro hr
    obtain ⟨err, he, hc⟩ :=
      flagValueLoop_head_without_value L f tok rest ht hhead hr pre.length pre [] [] le_rfl
    exact ⟨err, by simp [flagValue, he], hc⟩
  · intro nxt rest' values remaining hn
    cases hv : f.Validate L nxt with
    | some err => exact loop_value_invalid L f _ _ _ hhead hnb (by simp [hn]) hv
    | none => exact loop_value_ok L f _ _ _ hhead hnb (by simp [hn]) hv

/-- C19 on the string flag `-b`: after `-b x` is taken, the head `-b` at the
end has no value. -/
theorem flagValue_head_without_value_witness :
    (flagB.Type = NUMBER_FLAG ∨ flagB.Type = STRING_FLAG) ∧
    ("-b" = "-" ++ flagB.ShortName ∨ "-b" = "--" ++ flagB.LongName) ∧
    ∃ err, flagValue exampleLib flagB (["-b", "x"] ++ "-b" :: []) = .error err ∧
      err.Code = INVAID_VALUE :=
  ⟨Or.inr rfl, Or.inl rfl,
    (flagValue_head_without_value exampleLib flagB "-b" ["-b", "x"] [] (Or.inr rfl)
      (Or.inl rfl)).1 (Or.inl rfl)⟩

/-! ## One pass takes every occurrence -/

/-- Every token the scan adds to the remainder is neither a head nor an equals
form of the flag. -/
theorem flagValueLoop_remainder_no_match (L : StdLib) (f : FlagDef)
    (args values remaining : List String) :
    ∀ vs rm, flagValueLoop L f args values remaining = .ok (vs, rm) →
      ∀ tok ∈ rm, tok ∈ remaining ∨
        (¬ isHead f tok = true ∧ ¬ isEqualsForm f tok = true) := by
  induction args, values, remaining using flagValueLoop.induct L f with
  | case1 values remaining =>
    intro vs rm h tok ht
    rw [loop_nil] at h
    cases h
    exact Or.inl ht
  | case2 tok values remaining h1 h2 nxt rest' h3 ih =>
    intro vs rm h
    rw [loop_bool_explicit L f _ _ _ h1 h2 h3] at h
    exact ih vs rm h
  | case3 tok values remaining h1 h2 nxt rest' val h3 ih =>
    intro vs rm h
    rw [loop_bool_implicit L f _ _ _ h1 h2 h3] at h
    exact ih vs rm h
  | case4 tok values remaining h1 h2 ih =>
    intro vs rm h
    rw [loop_bool_last L f _ _ h1 h2] at h
    cases h
    exact fun t ht => Or.inl ht
  | case5 tok values remaining h1 h2 nxt rest' h3 err h4 =>
    intro vs rm h
    rw [loop_value_invalid L f _ _ _ h1 h2 h3 h4] at h
    cases h
  | case6 tok values remaining h1 h2 nxt rest' h3 h4 ih =>
    intro vs rm h
    rw [loop_value_ok L f _ _ _ h1 h2 h3 h4] at h
    exact ih vs rm h
  | case7 tok values remaining h1 h2 nxt rest' h3 =>
    intro vs rm h
    rw [loop_value_dash L f _ _ _ h1 h2 h3] at h
    cases h
  | case8 tok values remaining h1 h2 =>
    intro vs rm h
    rw [loop_value_last L f _ _ h1 h2] at h
    cases h
  | case9 tok rest values remaining h1 h2 eqIndx value err h3 =>
    intro vs rm h
    rw [loop_equals_invalid L f _ _ _ h1 h2 h3] at h
    cases h
  | case10 tok rest values remaining h1 h2 eqIndx value h3 ih =>
    intro vs rm h
    rw [loop_equals_ok L f _ _ _ h1 h2 h3] at h
    exact ih vs rm h
  | case11 tok rest values remaining h1 h2 ih =>
    intro vs rm h t ht
    rw [loop_other L f _ _ _ h1 h2] at h
    rcases ih vs rm h t ht with hm | hm
    · rcases List.mem_append.mp hm with hm | hm
      · exact Or.inl hm
      · rw [List.mem_singleton] at hm
        subst hm
        exact Or.inr ⟨h1, h2⟩
    · exact Or.inr hm

/-- C20, as stated: the required flag `-r` passes over `["-r", "x", "y"]` and
leaves `["y"]`; run again on `["y"]` the matcher does not return the remainder,
it fails with `INVALID_USAGE`, since a required flag must match. -/
theorem flagValue_second_pass_fails_when_required :
    flagValue exampleLib flagR ["-r", "x", "y"] = .ok (["x"], ["y"]) ∧
    flagValue exampleLib flagR ["y"] = .error (NewError INVALID_USAGE) ∧
    ¬ ∃ vals, flagValue exampleLib flagR ["y"] = .ok (vals, ["y"]) := by
  refine ⟨by decide, by decide, ?_⟩
  rintro ⟨vals, h⟩
  have h2 : flagValue exampleLib flagR ["y"] = .error (NewError INVALID_USAGE) := by decide
  rw [h2] at h
  cases h

/-- C20, amended. After a successful pass of the matcher for a flag, the
remainder holds no head and no equals form of that flag, and the scan of the
remainder matches nothing and keeps it whole. Run again on the remainder, the
matcher for a flag that is not required returns the flag's defaults and the
remainder unchanged; for a required flag it fails with `INVALID_USAGE`. -/
theorem flagValue_pass_idempotent (L : StdLib) (f : FlagDef)
    (cmdArgs vals rem : List String)
    (h : flagValue L f cmdArgs = .ok (vals, rem)) :
    (∀ tok ∈ rem,
      tok ≠ "-" ++ f.ShortName ∧ tok ≠ "--" ++ f.LongName ∧
      strings.HasPrefix tok ("-" ++ f.ShortName ++ "=") = false ∧
      strings.HasPrefix tok ("--" ++ f.LongName ++ "=") = false) ∧
    flagValueLoop L f rem [] [] = .ok ([], rem) ∧
    (f.Required = false → flagValue L f rem = .ok (f.DefaultValues, rem)) ∧
    (f.Required = true →
      ∃ err, flagValue L f rem = .error err ∧ err.Code = INVALID_USAGE) := by
  obtain ⟨vs, hl, -⟩ := (flagValue_ok_iff L f cmdArgs vals rem).mp h
  have hno : ∀ tok ∈ rem, ¬ isHead f tok = true ∧ ¬ isEqualsForm f tok = true := by
    intro tok ht
    rcases flagValueLoop_remainder_no_match L f cmdArgs [] [] vs rem hl tok ht with hm | hm
    · cases hm
    · exact hm
  refine ⟨?_, ?_, ?_, ?_⟩
  · intro tok ht
    obtain ⟨h1, h2⟩ := hno tok ht
    simp only [isHead, decide_eq_true_eq, not_or] at h1
    simp only [isEqualsForm, decide_eq_true_eq, not_or, Bool.not_eq_true] at h2
    exact ⟨h1.1, h1.2, h2.1, h2.2⟩
  · simpa using flagValueLoop_no_match L f rem hno [] []
  · intro hreq
    exact flagValue_optional_missing L f rem hreq hno
  · intro hreq
    exact ⟨_, flagValue_required_missing L f rem hreq hno, rfl⟩

/-- The amended C20 on the boolean `-v` over `["a", "-v", "b"]`. -/
theorem flagValue_pass_idempotent_witness :
    flagValue exampleLib flagV ["a", "-v", "b"] = .ok (["true"], ["a", "b"]) ∧
    flagValue exampleLib flagV ["a", "b"] = .ok (flagV.DefaultValues, ["a", "b"]) :=
  ⟨by decide,
    (flagValue_pass_idempotent exampleLib flagV ["a", "-v", "b"] ["true"] ["a", "b"]
      (by decide)).2.2.1 rfl⟩

/-! ## Names in the result -/

/-- Registering a flag that has values maps each of its non-empty names to its
index. -/
theorem register_names_own (result : Result) (flag : FlagDef) (id : Nat)
    (flagVals : List String) (n : String) (hv : flagVals ≠ []) (hn : n ≠ "")
    (hown : n = flag.ShortName ∨ n = flag.LongName) :
    (register result flag id flagVals).FlagsNameToID.get? n = some (id : Int) := by
  have hlen : flagVals.length > 0 := List.length_pos.mpr hv
  simp only [register, hlen, if_true]
  by_cases hl : flag.LongName = n
  · have hl' : flag.LongName ≠ "" := hl ▸ hn
    simp only [hl', ne_eq, not_false_eq_true, if_true]
    rw [GoMap.get?_set, if_pos hl]
  · have hs : flag.ShortName = n := by
      rcases hown with h | h
      · exact h.symm
      · exact absurd h.symm hl
    have hs' : flag.ShortName ≠ "" := hs ▸ hn
    simp only [hs', ne_eq, not_false_eq_true, if_true]
    split_ifs
    · rw [GoMap.get?_set, if_pos hs]
    · rw [GoMap.get?_set, if_neg hl, GoMap.get?_set, if_pos hs]

/-- Registering a flag leaves the names it does not own as they were. -/
theorem register_names_other (result : Result) (flag : FlagDef) (id : Nat)
    (flagVals : List String) (n : String)
    (hs : flag.ShortName ≠ n) (hl : flag.LongName ≠ n) :
    (register result flag id flagVals).FlagsNameToID.get? n =
      result.FlagsNameToID.get? n := by
  unfold register
  split_ifs <;> simp only [GoMap.get?_set, if_neg hs, if_neg hl]

/-- A successful `Parse`, cut at the flag of index `pre.length`: the loop over
the flags before it, the pass of the flag, the registration, and the loop over
the flags after it. -/
theorem Parse_split (L : StdLib) (pre post : List FlagDef) (f : FlagDef)
    (cmdArgs : List String) (allow : Bool) (res : Result)
    (h : Parse L (pre ++ f :: post) cmdArgs allow = .ok res) :
    ∃ r1 rem1 vals rem2 r3 rem3,
      parseLoop L pre 0 { FlagValuesForID := [], FlagsNameToID := [], NonFlagArgs := [] }
        cmdArgs = .ok (r1, rem1) ∧
      Parse L pre cmdArgs true = .ok { r1 with NonFlagArgs := rem1 } ∧
      flagValue L f rem1 = .ok (vals, rem2) ∧
      parseLoop L post (pre.length + 1) (register r1 f pre.length vals) rem2 = .ok (r3, rem3) ∧
      res = { r3 with NonFlagArgs := rem3 } := by
  obtain ⟨result, remaining, hl, -, rfl⟩ := (Parse_ok_iff L _ cmdArgs allow res).mp h
  rw [parseLoop_append] at hl
  cases h1 : parseLoop L pre 0 { FlagValuesForID := [], FlagsNameToID := [], NonFlagArgs := [] }
      cmdArgs with
  | error e => simp [h1] at hl
  | ok p =>
    obtain ⟨r1, rem1⟩ := p
    simp only [h1, parseLoop] at hl
    cases hv : flagValue L f rem1 with
    | error e => simp [hv] at hl
    | ok q =>
      obtain ⟨vals, rem2⟩ := q
      simp only [hv, Nat.zero_add] at hl
      exact ⟨r1, rem1, vals, rem2, result, remaining, rfl,
        (Parse_ok_iff L pre cmdArgs true _).mpr ⟨r1, rem1, h1, Or.inl rfl, rfl⟩, hv, hl, rfl⟩

/-- C21, as stated: `-t`, `--type` (default 123) is declared at index 0 and
`-t`, `--tag` (default x) at index 1. On the empty input both produce their
default, the name `t` of the first flag is mapped to index 1, and `Get("t")`
returns the values of the second flag. -/
theorem Parse_shared_name_goes_to_later_flag :
    Parse exampleLib [flagT, flagTag] [] false =
      .ok { FlagValuesForID := [(1, ["x"]), (0, ["123"])],
            FlagsNameToID := [("tag", 1), ("t", 1), ("type", 0)],
            NonFlagArgs := [] } ∧
    flagValue exampleLib flagT [] = .ok (["123"], []) ∧
    flagT.ShortName = "t" ∧
    GoMap.get? [("tag", (1 : Int)), ("t", 1), ("type", 0)] "t" ≠ some 0 ∧
    Get "t" (some { FlagValuesForID := [(1, ["x"]), (0, ["123"])],
                    FlagsNameToID := [("tag", 1), ("t", 1), ("type", 0)],
                    NonFlagArgs := [] }) = .ok ["x"] := by
  refine ⟨by decide, by decide, rfl, by decide, by decide⟩

/-- Registering a flag without values changes nothing. -/
theorem register_nil (result : Result) (flag : FlagDef) (id : Nat) :
    register result flag id [] = result := by
  simp [register]

/-- The flag loop leaves a name as it was when each of its flags that owns the
name produced no value, that is, has no entry in the value map afterwards. -/
theorem parseLoop_names_unproductive (L : StdLib) (flags : List FlagDef) (n : String) :
    ∀ (id : Nat) (result result' : Result) (remaining remaining' : List String),
    parseLoop L flags id result remaining = .ok (result', remaining') →
    (∀ (j : Nat) (g : FlagDef), flags[j]? = some g → (g.ShortName = n ∨ g.LongName = n) →
      result'.FlagValuesForID.get? ((id + j : Nat) : Int) = none) →
    result'.FlagsNameToID.get? n = result.FlagsNameToID.get? n := by
  induction flags with
  | nil =>
    intro id result result' remaining remaining' h _
    simp only [parseLoop] at h
    cases h
    rfl
  | cons f fs ih =>
    intro id result result' remaining remaining' h hown
    simp only [parseLoop] at h
    cases hv : flagValue L f remaining with
    | error e => simp [hv] at h
    | ok p =>
      obtain ⟨vals, rem⟩ := p
      simp only [hv] at h
      have hrest : result'.FlagsNameToID.get? n =
          (register result f id vals).FlagsNameToID.get? n := by
        apply ih (id + 1) _ result' rem remaining' h
        intro j g hj hg
        have := hown (j + 1) g (by simpa using hj) hg
        have e : id + 1 + j = id + (j + 1) := by omega
        rw [e]
        exact this
      rw [hrest]
      by_cases hf : f.ShortName = n ∨ f.LongName = n
      · have h0 := hown 0 f (by simp) hf
        rw [Nat.add_zero,
          (parseLoop_frame L fs _ _ _ _ _ h (id : Int) (Or.inl (by push_cast; omega))).1,
          register_values_get?] at h0
        have hvals : vals = [] := by
          by_contra hne
          simp [hne] at h0
        rw [hvals, register_nil]
      · rw [not_or] at hf
        exact register_names_other result f id vals n hf.1 hf.2

/-- C21, amended. After a successful `parse.Parse`, for the flag at declaration
index `i`: the value map holds exactly the flag's value sequence at `i` when the
flag produced at least one value, and has no entry at `i` otherwise; and when
the flag produced at least one value, every non-empty name it owns that is not
also owned by a later-declared flag that produced a value (one with an entry in
the value map) is mapped to `i`, so that `Get` under that name returns the
flag's own values. -/
theorem Parse_result_assembly (L : StdLib) (pre post : List FlagDef) (f : FlagDef)
    (cmdArgs : List String) (allowUnrecognizedFlags : Bool) (res : Result)
    (h : Parse L (pre ++ f :: post) cmdArgs allowUnrecognizedFlags = .ok res) :
    ∃ r0 vals rest, Parse L pre cmdArgs true = .ok r0 ∧
      flagValue L f r0.NonFlagArgs = .ok (vals, rest) ∧
      res.FlagValuesForID.get? (pre.length : Int) = (if vals ≠ [] then some vals else none) ∧
      (vals ≠ [] →
        ∀ n, n ≠ "" → (n = f.ShortName ∨ n = f.LongName) →
          (∀ (j : Nat) (g : FlagDef), post[j]? = some g →
            (g.ShortName = n ∨ g.LongName = n) →
            res.FlagValuesForID.get? ((pre.length + 1 + j : Nat) : Int) = none) →
          res.FlagsNameToID.get? n = some (pre.length : Int) ∧
          Get n (some res) = .ok vals) := by
  obtain ⟨r1, rem1, vals, rem2, r3, rem3, h1, hpre, hv, hpost, rfl⟩ :=
    Parse_split L pre post f cmdArgs allowUnrecognizedFlags res h
  have hvals : r3.FlagValuesForID.get? (pre.length : Int) =
      (if vals ≠ [] then some vals else none) := by
    rw [(parseLoop_frame L post _ _ _ _ _ hpost (pre.length : Int)
      (Or.inl (by push_cast; omega))).1, register_values_get?,
      (parseLoop_frame L pre _ _ _ _ _ h1 (pre.length : Int)
      (Or.inr (by push_cast; omega))).1]
    by_cases hne : vals ≠ [] <;> simp [hne, GoMap.get?]
  refine ⟨_, vals, rem2, hpre, hv, hvals, ?_⟩
  intro hne n hn hown hlater
  have hname : r3.FlagsNameToID.get? n = some (pre.length : Int) := by
    rw [parseLoop_names_unproductive L post n _ _ _ _ _ hpost hlater]
    exact register_names_own r1 f pre.length vals n hne hn hown
  refine ⟨hname, ?_⟩
  simp only [Get]
  rw [hname]
  simp only
  rw [hvals]
  simp [hne]

/-- The amended C21 on `-t`, `--type` (default 123) at index 0 and `-t`, `--tmp`
(no default) at index 1, on the empty input: the second flag owns the name `t`
too but produced nothing, so `t` is mapped to index 0 and `Get("t")` returns the
values of the first flag. -/
theorem Parse_result_assembly_witness :
    Parse exampleLib ([] ++ flagT :: [flagTmp]) [] false =
      .ok { FlagValuesForID := [(0, ["123"])], FlagsNameToID := [("type", 0), ("t", 0)],
            NonFlagArgs := [] } ∧
    GoMap.get? [("type", (0 : Int)), ("t", 0)] "t" = some 0 ∧
    Get "t" (some { FlagValuesForID := [(0, ["123"])],
                    FlagsNameToID := [("type", 0), ("t", 0)], NonFlagArgs := [] })
      = .ok ["123"] := by
  have hP : Parse exampleLib ([] ++ flagT :: [flagTmp]) [] false =
      .ok { FlagValuesForID := [(0, ["123"])], FlagsNameToID := [("type", 0), ("t", 0)],
            NonFlagArgs := [] } := by decide
  obtain ⟨r0, vals, rest, h0, hv, -, hnames⟩ :=
    Parse_result_assembly exampleLib [] [flagTmp] flagT [] false _ hP
  have e0 : Parse exampleLib [] [] true =
      .ok { FlagValuesForID := [], FlagsNameToID := [], NonFlagArgs := [] } := by decide
  rw [e0] at h0
  cases h0
  have e1 : flagValue exampleLib flagT [] = .ok (["123"], []) := by decide
  rw [show flagValue exampleLib flagT
      ({ FlagValuesForID := [], FlagsNameToID := [], NonFlagArgs := [] } : Result).NonFlagArgs
      = .ok (["123"], []) from e1] at hv
  cases hv
  have hlater : ∀ (j : Nat) (g : FlagDef), [flagTmp][j]? = some g →
      (g.ShortName = "t" ∨ g.LongName = "t") →
      GoMap.get? [((0 : Int), ["123"])] ((([] : List FlagDef).length + 1 + j : Nat) : Int)
        = none := by
    intro j g hj _
    cases j with
    | zero => decide
    | succ j => simp at hj
  exact ⟨hP, hnames (by decide) "t" (by decide) (Or.inl rfl) hlater⟩

/-! ## Repeated occurrences of one flag -/

/-- The token `-s=v` is an equals form, not a head, of a flag with short name
`s`, and the text after its first `=` is `v`. -/
theorem dash_s_equals_token (f : FlagDef) (v : String) (hs : f.ShortName = "s") :
    ¬ isHead f ("-s=" ++ v) = true ∧ isEqualsForm f ("-s=" ++ v) = true ∧
    strings.sliceFrom ("-s=" ++ v) (strings.Index ("-s=" ++ v) "=" + 1) = v := by
  refine ⟨?_, ?_, ?_⟩
  · simp only [isHead, decide_eq_true_eq, String.ext_iff, String.data_append, hs, not_or]
    constructor
    · intro hh
      have := congrArg List.length hh
      simp at this
    · intro hh
      simp at hh
  · simp [isEqualsForm, strings.HasPrefix, hs, String.data_append]
  · apply String.ext
    simp [strings.sliceFrom, strings.Index, strings.indexFrom, String.data_append]

/-- The scan over a run of occurrences of `-s` appends their values in order
and adds nothing to the remainder. -/
theorem flagValueLoop_occurrences (L : StdLib) (f : FlagDef)
    (hs : f.ShortName = "s") (ht : f.Type = STRING_FLAG)
    (hp : f.strRegex = none) (ha : f.allowedVals = [])
    (occ : List (Bool × String))
    (hv : ∀ p ∈ occ, strings.HasPrefix p.2 "-" = false) :
    ∀ values remaining : List String,
      flagValueLoop L f (occurrencesInput occ) values remaining =
        .ok (values ++ occ.map (fun p => p.2), remaining) := by
  have hnb : ¬ f.Type = BOOL_FLAG := by rw [ht]; decide
  have hhead : isHead f "-s" = true := by simp [isHead, hs]
  induction occ with
  | nil => intro values remaining; simp [occurrencesInput, loop_nil]
  | cons p occ ih =>
    intro values remaining
    obtain ⟨eq, v⟩ := p
    have hvv : strings.HasPrefix v "-" = false := hv (eq, v) (List.mem_cons_self _ _)
    have hval : f.Validate L v = none := Validate_plain_string L f v ht hp ha
    have ih' := ih (fun q hq => hv q (List.mem_cons_of_mem _ hq))
    cases eq with
    | false =>
      simp only [occurrencesInput, occurrenceTokens, Bool.false_eq_true, if_false,
        List.cons_append, List.nil_append]
      rw [loop_value_ok L f _ _ _ hhead hnb (by simp [hvv]) hval, ih']
      simp
    | true =>
      obtain ⟨h1, h2, h3⟩ := dash_s_equals_token f v hs
      simp only [occurrencesInput, occurrenceTokens, if_true, List.cons_append,
        List.nil_append]
      rw [loop_equals_ok L f _ _ _ h1 h2 (by rw [h3]; exact hval), h3, ih']
      simp

/-- C22. A flag may match several times and its values accumulate in encounter
order: for a string flag with short name `s`, no pattern and no whitelist, and
every non-empty list of values none of which starts with a dash, matching the
input made of one occurrence per value, each written in bare form `-s v` or in
equals form `-s=v`, yields exactly the values in order and an empty remainder;
in particular the input `-s v1 ... -s vn` does, and every choice of forms gives
the same value sequence. -/
theorem flagValue_accumulates_in_order (L : StdLib) (f : FlagDef)
    (occ : List (Bool × String))
    (hs : f.ShortName = "s") (ht : f.Type = STRING_FLAG)
    (hp : f.strRegex = none) (ha : f.allowedVals = [])
    (hne : occ ≠ [])
    (hv : ∀ p ∈ occ, strings.HasPrefix p.2 "-" = false) :
    flagValue L f (occurrencesInput occ) = .ok (occ.map (fun p => p.2), []) ∧
    flagValue L f (occurrencesInput (occ.map (fun p => (false, p.2)))) =
      .ok (occ.map (fun p => p.2), []) := by
  have key : ∀ o : List (Bool × String), o ≠ [] →
      (∀ p ∈ o, strings.HasPrefix p.2 "-" = false) →
      flagValue L f (occurrencesInput o) = .ok (o.map (fun p => p.2), []) := by
    intro o hone hov
    unfold flagValue
    rw [flagValueLoop_occurrences L f hs ht hp ha o hov [] []]
    cases o with
    | nil => exact absurd rfl hone
    | cons p o => simp
  refine ⟨key occ hne hv, ?_⟩
  have := key (occ.map (fun p => (false, p.2))) (by simpa using hne)
    (by
      intro p hp'
      obtain ⟨q, hq, rfl⟩ := List.mem_map.mp hp'
      exact hv q hq)
  simpa [List.map_map, Function.comp] using this

/-- C22 on the flag `-s` and the values `a`, `b`, `c`, the second in equals
form. -/
theorem flagValue_accumulates_in_order_witness :
    occurrencesInput [(false, "a"), (true, "b"), (false, "c")] =
      ["-s", "a", "-s=b", "-s", "c"] ∧
    flagValue exampleLib flagS ["-s", "a", "-s=b", "-s", "c"] = .ok (["a", "b", "c"], []) ∧
    flagValue exampleLib flagS ["-s", "a", "-s", "b", "-s", "c"] = .ok (["a", "b", "c"], []) :=
  ⟨by decide,
    (flagValue_accumulates_in_order exampleLib flagS [(false, "a"), (true, "b"), (false, "c")]
      rfl rfl rfl rfl (by simp) (by decide)).1,
    (flagValue_accumulates_in_order exampleLib flagS [(false, "a"), (true, "b"), (false, "c")]
      rfl rfl rfl rfl (by simp) (by decide)).2⟩

/-! ## Declaration order on an ambiguous input -/

/-- C23. The outcome of `parse.Parse` depends on declaration order. For the
flags A (`-a`, boolean) and S (`-s`, string) and the input `["-s", "-a", "x"]`:
declared as A, S the parse succeeds with a = `["true"]`, s = `["x"]` and no
leftovers; declared as S, A it fails with `INVAID_VALUE`. -/
theorem Parse_depends_on_declaration_order (L : StdLib) :
    New L "a" "" BOOL_FLAG [] = .ok flagA ∧ New L "s" "" STRING_FLAG [] = .ok flagS ∧
    (∃ r, Parse L [flagA, flagS] ["-s", "-a", "x"] false = .ok r ∧
      Get "a" (some r) = .ok ["true"] ∧ Get "s" (some r) = .ok ["x"] ∧
      r.NonFlagArgs = []) ∧
    (∃ err, Parse L [flagS, flagA] ["-s", "-a", "x"] false = .error err ∧
      err.Code = INVAID_VALUE) ∧
    Parse L [flagA, flagS] ["-s", "-a", "x"] false ≠
      Parse L [flagS, flagA] ["-s", "-a", "x"] false := by
  have h1 : Parse L [flagA, flagS] ["-s", "-a", "x"] false =
      .ok { FlagValuesForID := [(1, ["x"]), (0, ["true"])],
            FlagsNameToID := [("s", 1), ("a", 0)], NonFlagArgs := [] } := rfl
  have h2 : Parse L [flagS, flagA] ["-s", "-a", "x"] false = .error (NewError INVAID_VALUE) :=
    rfl
  refine ⟨rfl, rfl, ⟨_, h1, rfl, rfl, rfl⟩, ⟨_, h2, rfl⟩, ?_⟩
  rw [h1, h2]
  exact fun h => by cases h

/-! ## Stored values are valid -/

/-- Every value the scan collects passed `Validate`, provided the implicit
`true` of a boolean flag does. -/
theorem flagValueLoop_values_valid (L : StdLib) (f : FlagDef)
    (htrue : f.Type = BOOL_FLAG → f.Validate L "true" = none)
    (args values remaining : List String) :
    ∀ vs rm, flagValueLoop L f args values remaining = .ok (vs, rm) →
      (∀ v ∈ values, f.Validate L v = none) → ∀ v ∈ vs, f.Validate L v = none := by
  have step : ∀ (values : List String) (x : String), f.Validate L x = none →
      (∀ v ∈ values, f.Validate L v = none) → ∀ v ∈ values ++ [x], f.Validate L v = none := by
    intro values x hx hall v hv
    rcases List.mem_append.mp hv with hv | hv
    · exact hall v hv
    · rw [List.mem_singleton] at hv
      rw [hv]
      exact hx
  induction args, values, remaining using flagValueLoop.induct L f with
  | case1 values remaining =>
    intro vs rm h hall
    rw [loop_nil] at h
    cases h
    exact hall
  | case2 tok values remaining h1 h2 nxt rest' h3 ih =>
    intro vs rm h hall
    rw [loop_bool_explicit L f _ _ _ h1 h2 h3] at h
    exact ih vs rm h (step values nxt h3 hall)
  | case3 tok values remaining h1 h2 nxt rest' val h3 ih =>
    intro vs rm h hall
    rw [loop_bool_implicit L f _ _ _ h1 h2 h3] at h
    exact ih vs rm h (step values "true" (htrue h2) hall)
  | case4 tok values remaining h1 h2 ih =>
    intro vs rm h hall
    rw [loop_bool_last L f _ _ h1 h2] at h
    cases h
    exact step values "true" (htrue h2) hall
  | case5 tok values remaining h1 h2 nxt rest' h3 err h4 =>
    intro vs rm h
    rw [loop_value_invalid L f _ _ _ h1 h2 h3 h4] at h
    cases h
  | case6 tok values remaining h1 h2 nxt rest' h3 h4 ih =>
    intro vs rm h hall
    rw [loop_value_ok L f _ _ _ h1 h2 h3 h4] at h
    exact ih vs rm h (step values nxt h4 hall)
  | case7 tok values remaining h1 h2 nxt rest' h3 =>
    intro vs rm h
    rw [loop_value_dash L f _ _ _ h1 h2 h3] at h
    cases h
  | case8 tok values remaining h1 h2 =>
    intro vs rm h
    rw [loop_value_last L f _ _ h1 h2] at h
    cases h
  | case9 tok rest values remaining h1 h2 eqIndx value err h3 =>
    intro vs rm h
    rw [loop_equals_invalid L f _ _ _ h1 h2 h3] at h
    cases h
  | case10 tok rest values remaining h1 h2 eqIndx value h3 ih =>
    intro vs rm h hall
    rw [loop_equals_ok L f _ _ _ h1 h2 h3] at h
    exact ih vs rm h (step values _ h3 hall)
  | case11 tok rest values remaining h1 h2 ih =>
    intro vs rm h hall
    rw [loop_other L f _ _ _ h1 h2] at h
    exact ih vs rm h hall

/-- C24. Every value taken from the input is valid: in a successful
`parse.Parse`, for a flag built by `flagdef.New` whose pass matched at least
one token, the stored values are exactly the matched ones and each passes the
flag's `Validate`, the implicit `true` of a boolean included. Defaults are
stored without being validated: the number flag `-n` with default `abc` is
constructed, parses the empty input, and stores `abc`, which `Validate`
rejects. -/
theorem Parse_matched_values_valid (L : StdLib) (shortName longName : String)
    (flagType : FlagType) (opts : List FlagOption)
    (pre post : List FlagDef) (f : FlagDef)
    (cmdArgs : List String) (allowUnrecognizedFlags : Bool) (res : Result)
    (hnew : New L shortName longName flagType opts = .ok f)
    (h : Parse L (pre ++ f :: post) cmdArgs allowUnrecognizedFlags = .ok res) :
    (∃ r0 matched rest, Parse L pre cmdArgs true = .ok r0 ∧
      flagValueLoop L f r0.NonFlagArgs [] [] = .ok (matched, rest) ∧
      (matched ≠ [] →
        res.FlagValuesForID.get? (pre.length : Int) = some matched ∧
        ∀ v ∈ matched, f.Validate L v = none)) ∧
    (New exampleLib "n" "" NUMBER_FLAG [.DefaultValues ["abc"]] = .ok flagBadDefault ∧
      Parse exampleLib [flagBadDefault] [] false =
        .ok { FlagValuesForID := [(0, ["abc"])], FlagsNameToID := [("n", 0)],
              NonFlagArgs := [] } ∧
      flagBadDefault.Validate exampleLib "abc" = some (NewError INVAID_VALUE)) := by
  refine ⟨?_, rfl, by decide, by decide⟩
  obtain ⟨-, -, -, -, -, -, -, -, -, hal, -⟩ :=
    New_ok_fields L shortName longName flagType opts f hnew
  have htrue : f.Type = BOOL_FLAG → f.Validate L "true" = none := by
    intro hb
    exact (Validate_boolean L f "true" hb (hal hb)).mpr (Or.inl rfl)
  obtain ⟨r1, vals, rem2, hpre, hv, hget, -⟩ :=
    Parse_decompose L pre post f cmdArgs allowUnrecognizedFlags res h
  obtain ⟨vs, hl, hcase⟩ := (flagValue_ok_iff L f _ vals rem2).mp hv
  refine ⟨r1, vs, rem2, hpre, hl, ?_⟩
  intro hne
  have hvals : vals = vs := by
    rcases hcase with ⟨-, hh⟩ | ⟨he, -, -⟩
    · exact hh
    · exact absurd he hne
  subst hvals
  refine ⟨by rw [hget]; simp [hne], ?_⟩
  exact flagValueLoop_values_valid L f htrue _ [] [] vals rem2 hl (by simp)

/-- C24 on the boolean `-v` over `["-v"]`: the stored implicit `true` passes
`Validate`. -/
theorem Parse_matched_values_valid_witness :
    New exampleLib "v" "" BOOL_FLAG [] = .ok flagV ∧
    Parse exampleLib ([] ++ flagV :: []) ["-v"] false =
      .ok { FlagValuesForID := [(0, ["true"])], FlagsNameToID := [("v", 0)],
            NonFlagArgs := [] } ∧
    ∃ r0 matched rest, Parse exampleLib [] ["-v"] true = .ok r0 ∧
      flagValueLoop exampleLib flagV r0.NonFlagArgs [] [] = .ok (matched, rest) ∧
      (matched ≠ [] →
        GoMap.get? [((0 : Int), ["true"])] ((([] : List FlagDef).length : Nat) : Int)
          = some matched ∧
        ∀ v ∈ matched, flagV.Validate exampleLib v = none) :=
  ⟨rfl, by decide,
    (Parse_matched_values_valid exampleLib "v" "" BOOL_FLAG [] [] [] flagV ["-v"] false
      { FlagValuesForID := [(0, ["true"])], FlagsNameToID := [("v", 0)],
        NonFlagArgs := [] } rfl (by decide)).1⟩
